import Mathlib

/-!
# ActionNetwork contact loader

A shallow embedding of `src/extensions/contact-loaders/actionnetwork/index.js`.

Modelling conventions.

* JavaScript numbers are exact: `maxItems` and the computed `pagesNeeded` are rationals, the
  `total_pages` and `per_page` fields of an envelope are naturals.
* An `await`ed promise is modelled by its outcome, `Except Failure _`.  The network is an oracle
  `fetch item page` that answers each page request with an envelope or a failure.
* What the function does to the outside world is recorded in a trace of events: one `dispatch`
  per group of requests handed to one `Promise.all`, one `wait` per `setTimeoutPromise`.
* A JavaScript object used as a dictionary is an association list.
-/

namespace ActionNetwork

/-- Ways in which an awaited step can reject. -/
inductive Failure where
  /-- `getActionNetworkPage` / `getPerson` rethrow `new Error(message)`. -/
  | retrieval (item : String) (page : Nat)
  /-- A property access on `undefined` or `null`. -/
  | typeError
  /-- `JSON.parse` on malformed text. -/
  | syntaxError
  /-- `makeContact`: "Contact missing Phone field". -/
  | missingPhone
  /-- A rejection of the persistence layer or of the job system. -/
  | host
  deriving DecidableEq, Repr

/-- One page of a paginated resource, as decoded from the response body. -/
structure Envelope (α : Type) where
  total_pages : Nat
  per_page : Nat
  /-- The `_embedded` object, when present: resource key to item array. -/
  _embedded : Option (List (String × List α))
  deriving DecidableEq, Repr

/-- What `getActionNetworkPage` resolves to. -/
structure PageResponse (α : Type) where
  item : String
  page : Nat
  pageResponse : Envelope α
  deriving DecidableEq, Repr

/-- An observable action of the paginator. -/
inductive Event where
  /-- The requests `(item, page)` issued together and awaited by one `Promise.all`. -/
  | dispatch (requests : List (String × Nat))
  /-- The call `setTimeoutPromise millis`. -/
  | wait (millis : Nat)
  deriving DecidableEq, Repr

/-- The outcome of a paginator run together with what it did. -/
structure Run (β : Type) where
  trace : List Event
  result : Except Failure β

def REQUESTS_PER_SECOND : Nat := 4

def WAIT_MILLIS : Nat := 1100

/-- The network: the outcome of `GET <item>?page=<page>`. -/
abbrev Fetch (α : Type) := String → Nat → Except Failure (Envelope α)

/-- The function `getActionNetworkPage`: the decoded body wrapped with the request it answers. -/
def getActionNetworkPage {α : Type} (fetch : Fetch α) (item : String) (page : Nat) :
    Except Failure (PageResponse α) :=
  match fetch item page with
  | .ok pageResponse => .ok ⟨item, page, pageResponse⟩
  | .error e => .error e

/-- The expression `(response._embedded || [])["osdi:" + item] || []`. -/
def embeddedItems {α : Type} (item : String) (response : Envelope α) : List α :=
  ((response._embedded.getD []).lookup ("osdi:" ++ item)).getD []

/-- The responses dictionary: resource key to the envelopes received so far. -/
abbrev Responses (α : Type) := List (String × List (Envelope α))

/-- The function `extractReceived`; `responses[item]` is `undefined` when the key is missing and
`undefined.forEach` throws. -/
def extractReceived {α : Type} (item : String) (responses : Responses α) :
    Except Failure (List α) :=
  match responses.lookup item with
  | some received => .ok (received.flatMap (embeddedItems item))
  | none => .error .typeError

/-- The statement `responses[key].push(envelope)`; it throws when `responses[key]` is `undefined`. -/
def pushResponse {α : Type} (key : String) (envelope : Envelope α) :
    Responses α → Except Failure (Responses α)
  | [] => .error .typeError
  | (k, received) :: rest =>
    if k = key then .ok ((k, received ++ [envelope]) :: rest)
    else
      match pushResponse key envelope rest with
      | .ok rest' => .ok ((k, received) :: rest')
      | .error e => .error e

/-- The loop `pageResponses.forEach(pageResponse => responses[pageResponse.item].push(...))`. -/
def pushAll {α : Type} : List (PageResponse α) → Responses α → Except Failure (Responses α)
  | [], responses => .ok responses
  | pageResponse :: more, responses =>
    match pushResponse pageResponse.item pageResponse.pageResponse responses with
    | .ok responses' => pushAll more responses'
    | .error e => .error e

/-- The call `Promise.all(promises)`: every outcome when all resolve, else a rejection. -/
def promiseAll {β : Type} : List (Except Failure β) → Except Failure (List β)
  | [] => .ok []
  | .error e :: _ => .error e
  | .ok b :: more =>
    match promiseAll more with
    | .ok bs => .ok (b :: bs)
    | .error e => .error e

/-- The value stored in `pagesNeeded[endpoint]`.  A division by `per_page = 0` is `+Infinity`
in JavaScript, so that `Math.min` returns `total_pages`. -/
def pagesNeeded {α : Type} (maxItems : ℚ) (first : Envelope α) : ℚ :=
  if maxItems > 0 then
    if first.per_page = 0 then (first.total_pages : ℚ)
    else min (first.total_pages : ℚ) (max 1 (maxItems / (first.per_page : ℚ)))
  else (first.total_pages : ℚ)

/-- The loop `for (let i = 2; i <= pageCount; ++i) pageToDo.push([item, i, organization])`,
started at `i`. -/
def pageToDoFrom (item : String) (pageCount : ℚ) (i : Nat) : List (String × Nat) :=
  if (i : ℚ) ≤ pageCount then (item, i) :: pageToDoFrom item pageCount (i + 1) else []
termination_by ⌊pageCount⌋₊ + 1 - i
decreasing_by
  have h : i ≤ ⌊pageCount⌋₊ := Nat.le_floor (by assumption)
  omega

/-- The work list built from `pagesNeeded`, an object with the single key `endpoint`. -/
def pageToDo {α : Type} (endpoint : String) (maxItems : ℚ) (first : Envelope α) :
    List (String × Nat) :=
  pageToDoFrom endpoint (pagesNeeded maxItems first) 2

/-- The array method `slice(start, end)`. -/
def slice {β : Type} (xs : List β) (start stop : Nat) : List β :=
  (xs.drop start).take (stop - start)

/-- The `while (pageToDoStart < pageToDo.length)` loop of `getActionNetworkPages`;
`firstPagePromises` is the length of that array. -/
def trancheLoop {α : Type} (fetch : Fetch α) (firstPagePromises : Nat)
    (pageToDo : List (String × Nat)) (pageToDoStart : Nat) (responses : Responses α)
    (trace : List Event) : Run (Responses α) :=
  if pageToDoStart < pageToDo.length then
    let trace₁ :=
      if pageToDo.length > REQUESTS_PER_SECOND - firstPagePromises then
        trace ++ [Event.wait WAIT_MILLIS]
      else trace
    let pageToDoEnd := pageToDoStart + REQUESTS_PER_SECOND
    let thisTranche := slice pageToDo pageToDoStart pageToDoEnd
    let trace₂ := trace₁ ++ [Event.dispatch thisTranche]
    match promiseAll (thisTranche.map fun thisPageToDo =>
        getActionNetworkPage fetch thisPageToDo.1 thisPageToDo.2) with
    | .error e => ⟨trace₂, .error e⟩
    | .ok pageResponses =>
      match pushAll pageResponses responses with
      | .error e => ⟨trace₂, .error e⟩
      | .ok responses' =>
        trancheLoop fetch firstPagePromises pageToDo pageToDoEnd responses' trace₂
  else ⟨trace, .ok responses⟩
termination_by pageToDo.length - pageToDoStart
decreasing_by
  simp only [REQUESTS_PER_SECOND]
  omega

/-- The function `getActionNetworkPages`. -/
def getActionNetworkPages {α : Type} (fetch : Fetch α) (endpoint extractKey : String)
    (maxItems : ℚ) : Run (List α) :=
  let firstPagePromises := [getActionNetworkPage fetch endpoint 1]
  let trace := [Event.dispatch [(endpoint, 1)]]
  match promiseAll firstPagePromises with
  | .error e => ⟨trace, .error e⟩
  | .ok firstThings =>
    match firstThings with
    | [] => ⟨trace, .error .typeError⟩
    | firstThingsResponse :: _ =>
      let responses : Responses α := [(extractKey, [firstThingsResponse.pageResponse])]
      let run := trancheLoop fetch firstPagePromises.length
        (pageToDo endpoint maxItems firstThingsResponse.pageResponse) 0 responses trace
      match run.result with
      | .error e => ⟨run.trace, .error e⟩
      | .ok responses' => ⟨run.trace, extractReceived extractKey responses'⟩

/-! ## Observations on traces -/

/-- The requests of a trace, in issue order. -/
def requestsOf : List Event → List (String × Nat)
  | [] => []
  | .dispatch requests :: more => requests ++ requestsOf more
  | .wait _ :: more => requestsOf more

/-- The events that precede each tranche: the cooldown, when the loop takes it. -/
def cooldown (firstPagePromises : Nat) (work : List (String × Nat)) : List Event :=
  if work.length > REQUESTS_PER_SECOND - firstPagePromises then [Event.wait WAIT_MILLIS] else []

/-- The number of requests in each maximal stretch of the trace that contains no wait;
`current` counts the requests of the stretch under way. -/
def runLengthsAux (current : Nat) : List Event → List Nat
  | [] => [current]
  | .wait _ :: more => current :: runLengthsAux 0 more
  | .dispatch requests :: more => runLengthsAux (current + requests.length) more

/-- The number of requests in each maximal stretch of the trace that contains no wait. -/
def runLengths (trace : List Event) : List Nat := runLengthsAux 0 trace

/-! ## Contact lists -/

/-- An upstream list record, as far as `getContactLists` reads it. -/
structure ListRecord where
  name : Option String
  title : Option String
  identifiers : Option (List String)
  deriving DecidableEq, Repr

/-- One entry of the client choice data. -/
structure ContactList where
  name : String
  identifier : String
  deriving DecidableEq, Repr

/-- The line terminators, which `.` does not match. -/
def isLineTerminator (c : Char) : Bool :=
  c = Char.ofNat 0x0A || c = Char.ofNat 0x0D || c = Char.ofNat 0x2028 || c = Char.ofNat 0x2029

/-- The pattern `action_network:(.*)` tried at the start of `cs`: the capture, when it matches. -/
def matchHere (cs : List Char) : Option (List Char) :=
  if "action_network:".data.isPrefixOf cs then
    some ((cs.drop "action_network:".data.length).takeWhile fun c => !isLineTerminator c)
  else none

/-- The pattern `action_network:(.*)` tried at each position of `cs` from the left. -/
def execFrom : List Char → Option (List Char)
  | [] => matchHere []
  | c :: cs =>
    match matchHere (c :: cs) with
    | some captured => some captured
    | none => execFrom cs

/-- The value of `regexMatch[1]` for `identifierRegex.exec(candidate)`, when there is a match. -/
def identifierRegex (candidate : String) : Option String :=
  (execFrom candidate.data).map String.mk

/-- The value of `identifier` after `identifiers.some(...)`: the capture of the first candidate
that matches. -/
def firstIdentifier : List String → Option String
  | [] => none
  | identifierCandidate :: more =>
    match identifierRegex identifierCandidate with
    | some captured => some captured
    | none => firstIdentifier more

/-- Truthiness of an optional string: present and not empty. -/
def truthy : Option String → Bool
  | none => false
  | some s => s ≠ ""

/-- A template literal holding one value: the string itself, or the text `undefined`. -/
def interpolate : Option String → String
  | none => "undefined"
  | some s => s

/-- The body of `fetched.forEach(thing => ...)`: the entry pushed for `thing`, if any. -/
def toContactList (thing : ListRecord) : Option ContactList :=
  let identifier := firstIdentifier (thing.identifiers.getD [])
  if !truthy identifier || !truthy thing.name then none
  else
    some {
      name := interpolate (if truthy thing.name then thing.name else thing.title)
      identifier := interpolate identifier }

/-- The array method `sort(compare)`, a stable sort: insertion from the right keeps entries that
compare equal in their original order. -/
def arraySort {β : Type} (compare : β → β → Int) (xs : List β) : List β :=
  xs.insertionSort fun a b => compare a b ≤ 0

/-- The function `getContactLists`; `localeCompare` is the string method of that name. -/
def getContactLists (fetch : Fetch ListRecord) (localeCompare : String → String → Int) :
    Except Failure (List ContactList) :=
  match (getActionNetworkPages fetch "lists" "lists" (-1)).result with
  | .error e => .error e
  | .ok fetched =>
    .ok (arraySort (fun a b => localeCompare a.name b.name) (fetched.filterMap toContactList))

/-! ## Contacts -/

/-- A postal address of a person. -/
structure Address where
  primary : Bool
  postal_code : String
  deriving DecidableEq, Repr

/-- A person resource, as far as `makeContact` reads it. -/
structure Person where
  given_name : String
  family_name : String
  custom_fields : List (String × String)
  postal_addresses : List Address
  deriving DecidableEq, Repr

/-- A row of `campaign_contact`. -/
structure Contact where
  first_name : String
  last_name : String
  cell : String
  zip : String
  timezone_offset : String
  message_status : String
  campaign_id : Nat
  deriving DecidableEq, Repr

/-- The loop `for (const address of person.postal_addresses)` of `makeContact`. -/
def postalCodeLoop : List Address → String → String
  | [], postalCode => postalCode
  | address :: more, postalCode =>
    postalCodeLoop more (if address.primary then address.postal_code else postalCode)

/-- The function `makeContact`; `getTimezoneByZip` is the lookup of the host. -/
def makeContact (getTimezoneByZip : String → String) (person : Person) (campaignId : Nat) :
    Except Failure Contact :=
  match person.custom_fields.lookup "Phone" with
  | none => .error .missingPhone
  | some phone =>
    let postalCode := postalCodeLoop person.postal_addresses "02118"
    .ok {
      first_name := person.given_name
      last_name := person.family_name
      cell := "+1" ++ phone
      zip := postalCode
      timezone_offset := getTimezoneByZip postalCode
      message_status := "needsMessage"
      campaign_id := campaignId }

/-- A list-membership item: the value under `action_network:person_id`, when the key is there. -/
structure Membership where
  person_id : Option String
  deriving DecidableEq, Repr

/-- The network for single persons: the outcome of `GET people/<identifier>`. -/
abbrev GetPerson := String → Except Failure Person

/-- The loop `for (const item of items)` of `getContactsFromList`, with `people` so far. -/
def resolveLoop (getPerson : GetPerson) (getTimezoneByZip : String → String) (campaignId : Nat) :
    List Membership → List Contact → List Contact
  | [], people => people
  | item :: more, people =>
    match item.person_id with
    | none => resolveLoop getPerson getTimezoneByZip campaignId more people
    | some identifier =>
      match getPerson identifier with
      | .error _ => resolveLoop getPerson getTimezoneByZip campaignId more people
      | .ok person =>
        match makeContact getTimezoneByZip person campaignId with
        | .error _ => resolveLoop getPerson getTimezoneByZip campaignId more people
        | .ok contact =>
          resolveLoop getPerson getTimezoneByZip campaignId more (people ++ [contact])

/-- The function `getContactsFromList`. -/
def getContactsFromList (fetch : Fetch Membership) (getPerson : GetPerson)
    (getTimezoneByZip : String → String) (campaignId : Nat) (listIdentifier : String)
    (maxContacts : ℚ) : Except Failure (List Contact) :=
  match (getActionNetworkPages fetch ("lists/" ++ listIdentifier ++ "/items") "items"
      maxContacts).result with
  | .error e => .error e
  | .ok items => .ok (resolveLoop getPerson getTimezoneByZip campaignId items [])

/-- The contact that one membership item yields: none when it carries no person id, when the
person fetch fails, or when `makeContact` fails. -/
def contactOf (getPerson : GetPerson) (getTimezoneByZip : String → String) (campaignId : Nat)
    (item : Membership) : Option Contact :=
  match item.person_id with
  | none => none
  | some identifier =>
    match getPerson identifier with
    | .error _ => none
    | .ok person =>
      match makeContact getTimezoneByZip person campaignId with
      | .error _ => none
      | .ok contact => some contact

/-! ## The load -/

/-- A contact-load job. -/
structure Job where
  campaign_id : Nat
  payload : String
  deriving DecidableEq, Repr

/-- The value of `JSON.parse(job.payload)`: `null`, or a value whose properties
`listIdentifier` and `requestContactCount` convert to the given strings. -/
inductive ContactData where
  | null
  | value (listIdentifier requestContactCount : String)
  deriving DecidableEq, Repr

/-- A call into the persistence layer or the job system. -/
inductive Call where
  /-- `r.knex("campaign_contact").where("campaign_id", campaignId).delete()`. -/
  | delete (campaignId : Nat)
  /-- `r.knex.batchInsert("campaign_contact", rows, chunkSize)`. -/
  | batchInsert (rows : List Contact) (chunkSize : Nat)
  /-- `completeContactLoad(job, null, requested, JSON.stringify({ finalCount }))`. -/
  | completeContactLoad (job : Job) (requested : String) (finalCount : Nat)
  deriving DecidableEq, Repr

/-- The collaborators of a load and how each of them answers. -/
structure Host where
  fetch : Fetch Membership
  getPerson : GetPerson
  getTimezoneByZip : String → String
  /-- The builtin `JSON.parse`; `none` is a `SyntaxError`. -/
  jsonParse : String → Option ContactData
  deleteRejects : Bool
  batchInsertRejects : Bool
  completeContactLoadRejects : Bool

/-- What a load did: the calls it made, the table it left, how it ended. -/
structure Load where
  calls : List Call
  campaign_contact : List Contact
  result : Except Failure Unit

/-- The function `processContactLoad`, run on the table `campaign_contact`.  A call that rejects
leaves the table as it was. -/
def processContactLoad (host : Host) (job : Job) (maxContacts : ℚ)
    (campaign_contact : List Contact) : Load :=
  let campaignId := job.campaign_id
  let calls₁ := [Call.delete campaignId]
  if host.deleteRejects then ⟨calls₁, campaign_contact, .error .host⟩
  else
    let table₁ := campaign_contact.filter fun row => row.campaign_id ≠ campaignId
    match host.jsonParse job.payload with
    | none => ⟨calls₁, table₁, .error .syntaxError⟩
    | some .null => ⟨calls₁, table₁, .error .typeError⟩
    | some (.value listIdentifier requestContactCount) =>
      match getContactsFromList host.fetch host.getPerson host.getTimezoneByZip campaignId
          listIdentifier maxContacts with
      | .error e => ⟨calls₁, table₁, .error e⟩
      | .ok actionNetworkContacts =>
        let calls₂ := calls₁ ++ [Call.batchInsert actionNetworkContacts 100]
        if host.batchInsertRejects then ⟨calls₂, table₁, .error .host⟩
        else
          let table₂ := table₁ ++ actionNetworkContacts
          let calls₃ := calls₂ ++
            [Call.completeContactLoad job requestContactCount actionNetworkContacts.length]
          if host.completeContactLoadRejects then ⟨calls₃, table₂, .error .host⟩
          else ⟨calls₃, table₂, .ok ()⟩

/-- The calls of `completeContactLoad` among `calls`. -/
def completions : List Call → List (Job × String × Nat)
  | [] => []
  | .completeContactLoad job requested finalCount :: more =>
    (job, requested, finalCount) :: completions more
  | .delete _ :: more => completions more
  | .batchInsert _ _ :: more => completions more

/-! ## Inputs of the worked examples -/

/-- A list of six pages of memberships, every request answered. -/
def sixPages : Fetch Membership := fun _ page =>
  .ok ⟨6, 25, some [("osdi:items", List.replicate 25 ⟨some (toString page)⟩)]⟩

/-- A list of two pages, page `p` holding the single item `p`. -/
def twoPages : Fetch Nat := fun _ page => .ok ⟨2, 25, some [("osdi:items", [page])]⟩

/-- Two pages of 25 items each. -/
def fullPages : Fetch Nat := fun _ _ => .ok ⟨2, 25, some [("osdi:items", List.replicate 25 0)]⟩

/-- A host whose job payloads are all malformed; nothing else rejects. -/
def malformedPayloadHost : Host where
  fetch := fun _ _ => .ok ⟨1, 25, none⟩
  getPerson := fun _ => .error .host
  getTimezoneByZip := fun _ => "-5_1"
  jsonParse := fun _ => none
  deleteRejects := false
  batchInsertRejects := false
  completeContactLoadRejects := false

/-- A contact of campaign 7 loaded earlier. -/
def earlierContact : Contact :=
  { first_name := "Ada", last_name := "Moss", cell := "+15550000000", zip := "02118",
    timezone_offset := "-5_1", message_status := "needsMessage", campaign_id := 7 }

/-- A host with one page of 25 memberships, every one of a person with a phone; the payload
asks for list `abc` and 10 contacts. -/
def onePageHost : Host where
  fetch := fun _ _ => .ok ⟨1, 25, some [("osdi:items", List.replicate 25 ⟨some "p"⟩)]⟩
  getPerson := fun _ => .ok ⟨"Ada", "Moss", [("Phone", "5551234567")], []⟩
  getTimezoneByZip := fun _ => "-5_1"
  jsonParse := fun _ => some (.value "abc" "10")
  deleteRejects := false
  batchInsertRejects := false
  completeContactLoadRejects := false

/-- A host with two pages of 25 memberships each, every one of a person with a phone; the
payload asks for list `abc` and 50 contacts. -/
def twoPageHost : Host where
  fetch := fun _ _ => .ok ⟨2, 25, some [("osdi:items", List.replicate 25 ⟨some "p"⟩)]⟩
  getPerson := fun _ => .ok ⟨"Ada", "Moss", [("Phone", "5551234567")], []⟩
  getTimezoneByZip := fun _ => "-5_1"
  jsonParse := fun _ => some (.value "abc" "50")
  deleteRejects := false
  batchInsertRejects := false
  completeContactLoadRejects := false

/-- The contact made of the person of `onePageHost` for campaign 7. -/
def adaContact : Contact :=
  { first_name := "Ada", last_name := "Moss", cell := "+15551234567", zip := "02118",
    timezone_offset := "-5_1", message_status := "needsMessage", campaign_id := 7 }

/-- Names made of ASCII letters, digits and spaces. -/
def plainName (name : String) : Bool :=
  name.data.all fun c => c.isAlphanum || c = Char.ofNat 32

/-- A comparison that orders strings by their lower-case forms and, between strings with the
same lower-case form, puts first the one that is last in code point order (lower case before
upper case).  It stands for `localeCompare` on plain names only. -/
def plainCollate (a b : String) : Int :=
  if a.toLower < b.toLower then -1
  else if b.toLower < a.toLower then 1
  else if b < a then -1
  else if a < b then 1
  else 0

/-- Five upstream lists: three well formed, one without a name, one whose first matching
identifier has an empty capture. -/
def upstreamLists : List ListRecord :=
  [⟨some "Zed", none, some ["action_network:z3"]⟩,
   ⟨some "apple", none, some ["foo:1", "action_network:a1"]⟩,
   ⟨some "Beta", none, some ["action_network:b2"]⟩,
   ⟨none, some "untitled", some ["action_network:n4"]⟩,
   ⟨some "Gamma", none, some ["action_network:", "action_network:g5"]⟩]

/-- The network that serves `upstreamLists` as a single page. -/
def zedAppleBeta : Fetch ListRecord := fun _ _ =>
  .ok ⟨1, 25, some [("osdi:lists", upstreamLists)]⟩

/-! ## The work list -/

theorem pageToDoFrom_eq (item : String) (pageCount : ℚ) (i : Nat) (hi : i ≠ 0) :
    pageToDoFrom item pageCount i
      = (List.range' i (⌊pageCount⌋₊ + 1 - i)).map fun p => (item, p) := by
  generalize hn : ⌊pageCount⌋₊ + 1 - i = n
  induction n generalizing i with
  | zero =>
    rw [pageToDoFrom]
    have h : ¬ (i : ℚ) ≤ pageCount := by
      rw [← Nat.le_floor_iff' hi]
      omega
    simp [h]
  | succ k ih =>
    rw [pageToDoFrom]
    have h : (i : ℚ) ≤ pageCount := by
      rw [← Nat.le_floor_iff' hi]
      omega
    rw [if_pos h, ih (i + 1) (by omega) (by omega)]
    simp [List.range'_succ]

theorem floor_pagesNeeded {α : Type} (maxItems : ℚ) (first : Envelope α) :
    ⌊pagesNeeded maxItems first⌋₊
      = if maxItems > 0 ∧ first.per_page ≠ 0 then
          min first.total_pages (max 1 ⌊maxItems / (first.per_page : ℚ)⌋₊)
        else first.total_pages := by
  unfold pagesNeeded
  by_cases hm : maxItems > 0
  · by_cases hp : first.per_page = 0
    · simp [hm, hp]
    · simp only [hm, hp, if_true, if_false, true_and, ne_eq, not_false_eq_true]
      rw [(@Nat.floor_mono ℚ _ _).map_min, (@Nat.floor_mono ℚ _ _).map_max]
      simp
  · simp [hm]

theorem mem_pageToDo {α : Type} (endpoint : String) (maxItems : ℚ) (first : Envelope α)
    (r : String × Nat) :
    r ∈ pageToDo endpoint maxItems first
      ↔ r.1 = endpoint ∧ 2 ≤ r.2 ∧ (r.2 : ℚ) ≤ pagesNeeded maxItems first := by
  obtain ⟨a, p⟩ := r
  unfold pageToDo
  rw [pageToDoFrom_eq _ _ 2 (by decide)]
  simp only [List.mem_map, List.mem_range'_1, Prod.mk.injEq]
  constructor
  · rintro ⟨q, ⟨h2, hq⟩, rfl, rfl⟩
    refine ⟨rfl, h2, ?_⟩
    rw [← Nat.le_floor_iff' (by omega)]
    omega
  · rintro ⟨rfl, h2, hp⟩
    rw [← Nat.le_floor_iff' (by omega)] at hp
    exact ⟨p, ⟨h2, by omega⟩, rfl, rfl⟩

theorem pageToDo_item {α : Type} (endpoint : String) (maxItems : ℚ) (first : Envelope α)
    (r : String × Nat) (h : r ∈ pageToDo endpoint maxItems first) : r.1 = endpoint :=
  ((mem_pageToDo endpoint maxItems first r).1 h).1

theorem pageToDo_pages {α : Type} (endpoint : String) (maxItems : ℚ) (first : Envelope α) :
    (pageToDo endpoint maxItems first).map Prod.snd
      = List.range' 2 (⌊pagesNeeded maxItems first⌋₊ - 1) := by
  unfold pageToDo
  rw [pageToDoFrom_eq _ _ 2 (by decide)]
  simp [Function.comp_def]

theorem pageToDo_length {α : Type} (endpoint : String) (maxItems : ℚ) (first : Envelope α) :
    (pageToDo endpoint maxItems first).length = ⌊pagesNeeded maxItems first⌋₊ - 1 := by
  have h := congrArg List.length (pageToDo_pages endpoint maxItems first)
  simpa using h

/-! ## One tranche -/

theorem promiseAll_map_ok {α β : Type} (f : α → Except Failure β) (g : α → β) (xs : List α)
    (h : ∀ x ∈ xs, f x = .ok (g x)) : promiseAll (xs.map f) = .ok (xs.map g) := by
  induction xs with
  | nil => rfl
  | cons x xs ih =>
    have hx := h x (List.mem_cons_self _ _)
    have hxs := ih fun y hy => h y (List.mem_cons_of_mem _ hy)
    simp [promiseAll, hx, hxs]

theorem pushAll_same_key {α : Type} (key : String) (pageResponses : List (PageResponse α))
    (received : List (Envelope α)) (h : ∀ r ∈ pageResponses, r.item = key) :
    pushAll pageResponses [(key, received)]
      = .ok [(key, received ++ pageResponses.map PageResponse.pageResponse)] := by
  induction pageResponses generalizing received with
  | nil => simp [pushAll]
  | cons r rs ih =>
    have hr := h r (List.mem_cons_self _ _)
    have hrs := ih (received ++ [r.pageResponse]) fun y hy => h y (List.mem_cons_of_mem _ hy)
    simp [pushAll, pushResponse, hr, hrs]

theorem pushAll_other_key {α : Type} (key : String) (r : PageResponse α)
    (rs : List (PageResponse α)) (received : List (Envelope α)) (h : r.item ≠ key) :
    pushAll (r :: rs) [(key, received)] = .error .typeError := by
  have h' : ¬ key = r.item := fun e => h e.symm
  simp [pushAll, pushResponse, h']

theorem slice_append_drop {β : Type} (xs : List β) (start n : Nat) :
    slice xs start (start + n) ++ xs.drop (start + n) = xs.drop start := by
  unfold slice
  rw [Nat.add_sub_cancel_left, ← List.drop_drop]
  exact List.take_append_drop n (xs.drop start)

theorem slice_length_le {β : Type} (xs : List β) (start n : Nat) :
    (slice xs start (start + n)).length ≤ n := by
  unfold slice
  rw [Nat.add_sub_cancel_left, List.length_take]
  exact Nat.min_le_left _ _

theorem slice_ne_nil {β : Type} (xs : List β) (start n : Nat) (h : start < xs.length)
    (hn : 0 < n) : slice xs start (start + n) ≠ [] := by
  intro e
  have hl := congrArg List.length e
  unfold slice at hl
  rw [Nat.add_sub_cancel_left, List.length_take, List.length_drop] at hl
  simp only [List.length_nil] at hl
  omega

theorem mem_of_mem_slice {β : Type} (xs : List β) (start stop : Nat) (x : β)
    (h : x ∈ slice xs start stop) : x ∈ xs :=
  List.mem_of_mem_drop (List.mem_of_mem_take h)

theorem requestsOf_append (xs ys : List Event) :
    requestsOf (xs ++ ys) = requestsOf xs ++ requestsOf ys := by
  induction xs with
  | nil => rfl
  | cons e es ih => cases e <;> simp [requestsOf, ih]

/-! ## The tranche loop when every fetch succeeds and the keys agree -/

theorem trancheLoop_ok {α : Type} (fetch : Fetch α) (env : String × Nat → Envelope α)
    (key : String) (n : Nat) (work : List (String × Nat))
    (hkey : ∀ r ∈ work, r.1 = key) (hfetch : ∀ r ∈ work, fetch r.1 r.2 = .ok (env r))
    (start : Nat) (received : List (Envelope α)) (trace : List Event) :
    (trancheLoop fetch n work start [(key, received)] trace).result
        = .ok [(key, received ++ (work.drop start).map env)]
      ∧ requestsOf (trancheLoop fetch n work start [(key, received)] trace).trace
        = requestsOf trace ++ work.drop start := by
  generalize hm : work.length - start = m
  induction m using Nat.strong_induction_on generalizing start received trace with
  | _ m ih =>
    rw [trancheLoop]
    by_cases hlt : start < work.length
    · have hall : promiseAll ((slice work start (start + REQUESTS_PER_SECOND)).map
          fun r => getActionNetworkPage fetch r.1 r.2)
          = .ok ((slice work start (start + REQUESTS_PER_SECOND)).map
              fun r => ⟨r.1, r.2, env r⟩) := by
        apply promiseAll_map_ok
        intro r hr
        simp [getActionNetworkPage, hfetch r (mem_of_mem_slice _ _ _ _ hr)]
      have hpush := pushAll_same_key key
        ((slice work start (start + REQUESTS_PER_SECOND)).map
          fun r => (⟨r.1, r.2, env r⟩ : PageResponse α)) received (by
            intro r hr
            obtain ⟨q, hq, rfl⟩ := List.mem_map.1 hr
            exact hkey q (mem_of_mem_slice _ _ _ _ hq))
      have hrec := ih (work.length - (start + REQUESTS_PER_SECOND))
        (by simp only [REQUESTS_PER_SECOND]; omega) (start + REQUESTS_PER_SECOND)
      simp only [hlt, if_true, hall, hpush]
      obtain ⟨h1, h2⟩ := hrec _ _ rfl
      refine ⟨?_, ?_⟩
      · rw [h1]
        simp only [List.map_map, List.append_assoc, ← List.map_append, Function.comp_def]
        rw [slice_append_drop]
      · rw [h2]
        split <;>
          simp [requestsOf_append, requestsOf, List.append_assoc, slice_append_drop]
    · have hdrop : work.drop start = [] := List.drop_eq_nil_of_le (by omega)
      simp [hlt, hdrop]

/-! ## The shape of the trace, whatever the network answers -/

theorem trancheLoop_trace {α : Type} (fetch : Fetch α) (n : Nat) (work : List (String × Nat))
    (start : Nat) (responses : Responses α) (trace : List Event) :
    ∃ ts : List (List (String × Nat)),
      (trancheLoop fetch n work start responses trace).trace
          = trace ++ ts.flatMap (fun t => cooldown n work ++ [Event.dispatch t])
        ∧ (∀ t ∈ ts, t ≠ [] ∧ t.length ≤ REQUESTS_PER_SECOND)
        ∧ ts.flatten <+: work.drop start
        ∧ (start < work.length →
            ∃ rest, ts = slice work start (start + REQUESTS_PER_SECOND) :: rest) := by
  generalize hm : work.length - start = m
  induction m using Nat.strong_induction_on generalizing start responses trace with
  | _ m ih =>
    rw [trancheLoop]
    by_cases hlt : start < work.length
    · have hslice : slice work start (start + REQUESTS_PER_SECOND) ≠ []
          ∧ (slice work start (start + REQUESTS_PER_SECOND)).length ≤ REQUESTS_PER_SECOND :=
        ⟨slice_ne_nil _ _ _ hlt (by decide), slice_length_le _ _ _⟩
      have hpre : slice work start (start + REQUESTS_PER_SECOND) <+: work.drop start :=
        ⟨_, slice_append_drop work start REQUESTS_PER_SECOND⟩
      have htrace : (if work.length > REQUESTS_PER_SECOND - n
            then trace ++ [Event.wait WAIT_MILLIS] else trace)
            ++ [Event.dispatch (slice work start (start + REQUESTS_PER_SECOND))]
          = trace ++ [slice work start (start + REQUESTS_PER_SECOND)].flatMap
              (fun t => cooldown n work ++ [Event.dispatch t]) := by
        unfold cooldown
        split <;> simp
      have hsingle : ∃ ts : List (List (String × Nat)),
          (if work.length > REQUESTS_PER_SECOND - n
            then trace ++ [Event.wait WAIT_MILLIS] else trace)
            ++ [Event.dispatch (slice work start (start + REQUESTS_PER_SECOND))]
            = trace ++ ts.flatMap (fun t => cooldown n work ++ [Event.dispatch t])
          ∧ (∀ t ∈ ts, t ≠ [] ∧ t.length ≤ REQUESTS_PER_SECOND)
          ∧ ts.flatten <+: work.drop start
          ∧ (start < work.length →
              ∃ rest, ts = slice work start (start + REQUESTS_PER_SECOND) :: rest) := by
        refine ⟨[slice work start (start + REQUESTS_PER_SECOND)], htrace, ?_, ?_, fun _ => ⟨[], rfl⟩⟩
        · intro t ht
          rw [List.mem_singleton] at ht
          subst ht
          exact hslice
        · simpa using hpre
      simp only [if_pos hlt]
      split
      · exact hsingle
      · split
        · exact hsingle
        · rename_i responses' _
          obtain ⟨ts, h1, h2, h3, _⟩ := ih (work.length - (start + REQUESTS_PER_SECOND))
            (by simp only [REQUESTS_PER_SECOND]; omega) (start + REQUESTS_PER_SECOND)
            responses' ((if work.length > REQUESTS_PER_SECOND - n
              then trace ++ [Event.wait WAIT_MILLIS] else trace)
              ++ [Event.dispatch (slice work start (start + REQUESTS_PER_SECOND))]) rfl
          refine ⟨slice work start (start + REQUESTS_PER_SECOND) :: ts, ?_, ?_, ?_,
            fun _ => ⟨ts, rfl⟩⟩
          · rw [h1, htrace]
            simp
          · intro t ht
            rcases List.mem_cons.1 ht with rfl | ht
            · exact hslice
            · exact h2 t ht
          · rw [List.flatten_cons, ← slice_append_drop work start REQUESTS_PER_SECOND]
            exact (List.prefix_append_right_inj _).2 h3
    · refine ⟨[], ?_, ?_, ?_, fun h => absurd h hlt⟩
      · simp [hlt]
      · intro t ht
        cases ht
      · simp

theorem getActionNetworkPages_trace_error {α : Type} (fetch : Fetch α)
    (endpoint extractKey : String) (maxItems : ℚ) (e : Failure)
    (h : fetch endpoint 1 = .error e) :
    getActionNetworkPages fetch endpoint extractKey maxItems
      = ⟨[Event.dispatch [(endpoint, 1)]], .error e⟩ := by
  simp [getActionNetworkPages, getActionNetworkPage, promiseAll, h]

theorem getActionNetworkPages_trace_ok {α : Type} (fetch : Fetch α)
    (endpoint extractKey : String) (maxItems : ℚ) (first : Envelope α)
    (h : fetch endpoint 1 = .ok first) :
    (getActionNetworkPages fetch endpoint extractKey maxItems).trace
      = (trancheLoop fetch 1 (pageToDo endpoint maxItems first) 0 [(extractKey, [first])]
          [Event.dispatch [(endpoint, 1)]]).trace := by
  simp only [getActionNetworkPages, getActionNetworkPage, promiseAll, h, List.length_singleton]
  split <;> rfl

theorem runLengthsAux_cooled (current : Nat) (ts : List (List (String × Nat)))
    (hc : current ≤ REQUESTS_PER_SECOND) (h : ∀ t ∈ ts, t.length ≤ REQUESTS_PER_SECOND) :
    ∀ k ∈ runLengthsAux current
        (ts.flatMap fun t => [Event.wait WAIT_MILLIS, Event.dispatch t]),
      k ≤ REQUESTS_PER_SECOND := by
  induction ts generalizing current with
  | nil =>
    intro k hk
    simp only [List.flatMap_nil, runLengthsAux, List.mem_singleton] at hk
    omega
  | cons t ts ih =>
    intro k hk
    simp only [List.flatMap_cons, List.cons_append, List.nil_append, runLengthsAux,
      List.mem_cons, Nat.zero_add] at hk
    rcases hk with rfl | hk
    · exact hc
    · exact ih t.length (h t (List.mem_cons_self _ _))
        (fun u hu => h u (List.mem_cons_of_mem _ hu)) k hk

theorem eq_nil_of_flatten_eq_nil {β : Type} (ts : List (List β)) (h : ∀ t ∈ ts, t ≠ [])
    (hf : ts.flatten = []) : ts = [] := by
  cases ts with
  | nil => rfl
  | cons t ts =>
    exfalso
    rw [List.flatten_cons, List.append_eq_nil] at hf
    exact h t (List.mem_cons_self _ _) hf.1

theorem slice_zero_of_length_le {β : Type} (xs : List β) (n : Nat) (h : xs.length ≤ n) :
    slice xs 0 (0 + n) = xs := by
  unfold slice
  simp [List.take_of_length_le h]

theorem trace_small {α : Type} (fetch : Fetch α) (endpoint extractKey : String) (maxItems : ℚ)
    (first : Envelope α) (h : fetch endpoint 1 = .ok first)
    (hlen : (pageToDo endpoint maxItems first).length ≤ 3) :
    (getActionNetworkPages fetch endpoint extractKey maxItems).trace
      = Event.dispatch [(endpoint, 1)] ::
          (if pageToDo endpoint maxItems first = [] then []
           else [Event.dispatch (pageToDo endpoint maxItems first)]) := by
  rw [getActionNetworkPages_trace_ok fetch endpoint extractKey maxItems first h]
  obtain ⟨ts, h1, h2, h3, h4⟩ := trancheLoop_trace fetch 1
    (pageToDo endpoint maxItems first) 0 [(extractKey, [first])] [Event.dispatch [(endpoint, 1)]]
  have hcool : cooldown 1 (pageToDo endpoint maxItems first) = [] := by
    unfold cooldown
    rw [if_neg]
    simp only [REQUESTS_PER_SECOND]
    omega
  rw [h1, hcool]
  rw [List.drop_zero] at h3
  by_cases hnil : pageToDo endpoint maxItems first = []
  · rw [hnil] at h3
    have hts : ts = [] :=
      eq_nil_of_flatten_eq_nil ts (fun t ht => (h2 t ht).1) (List.prefix_nil.1 h3)
    simp [hts, hnil]
  · obtain ⟨rest, hrest⟩ := h4 (List.length_pos.2 hnil)
    rw [slice_zero_of_length_le _ _ (by simp only [REQUESTS_PER_SECOND]; omega)] at hrest
    subst hrest
    have hrestnil : rest = [] := by
      apply eq_nil_of_flatten_eq_nil rest fun t ht => (h2 t (List.mem_cons_of_mem _ ht)).1
      obtain ⟨tail, htail⟩ := h3
      rw [List.flatten_cons, List.append_assoc] at htail
      have := List.append_eq_nil.1 (List.append_right_eq_self.1 htail)
      exact this.1
    simp [hrestnil, hnil]

theorem trace_large {α : Type} (fetch : Fetch α) (endpoint extractKey : String) (maxItems : ℚ)
    (first : Envelope α) (h : fetch endpoint 1 = .ok first)
    (hlen : 3 < (pageToDo endpoint maxItems first).length) :
    ∃ ts : List (List (String × Nat)),
      (getActionNetworkPages fetch endpoint extractKey maxItems).trace
          = Event.dispatch [(endpoint, 1)] ::
              ts.flatMap (fun t => [Event.wait 1100, Event.dispatch t])
        ∧ ts ≠ []
        ∧ (∀ t ∈ ts, t ≠ [] ∧ t.length ≤ 4)
        ∧ ts.flatten <+: pageToDo endpoint maxItems first := by
  rw [getActionNetworkPages_trace_ok fetch endpoint extractKey maxItems first h]
  obtain ⟨ts, h1, h2, h3, h4⟩ := trancheLoop_trace fetch 1
    (pageToDo endpoint maxItems first) 0 [(extractKey, [first])] [Event.dispatch [(endpoint, 1)]]
  have hcool : cooldown 1 (pageToDo endpoint maxItems first) = [Event.wait 1100] := by
    unfold cooldown
    rw [if_pos]
    · rfl
    · simp only [REQUESTS_PER_SECOND]
      omega
  refine ⟨ts, ?_, ?_, h2, by simpa using h3⟩
  · rw [h1, hcool]
    rfl
  · obtain ⟨rest, hrest⟩ := h4 (by omega)
    rw [hrest]
    exact List.cons_ne_nil _ _

/-- C2: in the trace of `getActionNetworkPages`, whatever the network answers, every group of
requests dispatched together has at most 4 requests, and every maximal stretch of the trace
without a cooldown wait holds at most 4 requests, the request for page 1 included.  A work list
of at most 3 pages is dispatched as one tranche with no wait; a work list of more than 3 pages is
dispatched in tranches of at most 4, each preceded by a wait of 1100 ms. -/
theorem tranche_width_and_cooldown {α : Type} (fetch : Fetch α) (endpoint extractKey : String)
    (maxItems : ℚ) :
    (∀ t, Event.dispatch t ∈ (getActionNetworkPages fetch endpoint extractKey maxItems).trace →
        t.length ≤ 4)
      ∧ (∀ k ∈ runLengths (getActionNetworkPages fetch endpoint extractKey maxItems).trace,
        k ≤ 4)
      ∧ (∀ first, fetch endpoint 1 = .ok first →
          ((pageToDo endpoint maxItems first).length ≤ 3 →
            (getActionNetworkPages fetch endpoint extractKey maxItems).trace
              = Event.dispatch [(endpoint, 1)] ::
                  (if pageToDo endpoint maxItems first = [] then []
                   else [Event.dispatch (pageToDo endpoint maxItems first)]))
          ∧ (3 < (pageToDo endpoint maxItems first).length →
            ∃ ts : List (List (String × Nat)),
              (getActionNetworkPages fetch endpoint extractKey maxItems).trace
                  = Event.dispatch [(endpoint, 1)] ::
                      ts.flatMap (fun t => [Event.wait 1100, Event.dispatch t])
                ∧ ts ≠ []
                ∧ (∀ t ∈ ts, t ≠ [] ∧ t.length ≤ 4)
                ∧ ts.flatten <+: pageToDo endpoint maxItems first)) := by
  have shape : ∀ first, fetch endpoint 1 = .ok first →
      ((pageToDo endpoint maxItems first).length ≤ 3 →
        (getActionNetworkPages fetch endpoint extractKey maxItems).trace
          = Event.dispatch [(endpoint, 1)] ::
              (if pageToDo endpoint maxItems first = [] then []
               else [Event.dispatch (pageToDo endpoint maxItems first)]))
      ∧ (3 < (pageToDo endpoint maxItems first).length →
        ∃ ts : List (List (String × Nat)),
          (getActionNetworkPages fetch endpoint extractKey maxItems).trace
              = Event.dispatch [(endpoint, 1)] ::
                  ts.flatMap (fun t => [Event.wait 1100, Event.dispatch t])
            ∧ ts ≠ []
            ∧ (∀ t ∈ ts, t ≠ [] ∧ t.length ≤ 4)
            ∧ ts.flatten <+: pageToDo endpoint maxItems first) :=
    fun first h => ⟨trace_small fetch endpoint extractKey maxItems first h,
      trace_large fetch endpoint extractKey maxItems first h⟩
  refine ⟨?_, ?_, shape⟩
  · intro t ht
    cases hfirst : fetch endpoint 1 with
    | error e =>
      rw [getActionNetworkPages_trace_error fetch endpoint extractKey maxItems e hfirst] at ht
      simp only [List.mem_singleton, Event.dispatch.injEq] at ht
      subst ht
      simp
    | ok first =>
      by_cases hlen : (pageToDo endpoint maxItems first).length ≤ 3
      · rw [(shape first hfirst).1 hlen] at ht
        rcases List.mem_cons.1 ht with e | ht
        · rw [Event.dispatch.injEq] at e
          subst e
          simp
        · split at ht
          · cases ht
          · rw [List.mem_singleton, Event.dispatch.injEq] at ht
            subst ht
            omega
      · obtain ⟨ts, h1, _, h3, _⟩ := (shape first hfirst).2 (by omega)
        rw [h1] at ht
        rcases List.mem_cons.1 ht with e | ht
        · rw [Event.dispatch.injEq] at e
          subst e
          simp
        · obtain ⟨u, hu, hmem⟩ := List.mem_flatMap.1 ht
          simp only [List.mem_cons, Event.dispatch.injEq, List.mem_singleton, reduceCtorEq,
            false_or, List.not_mem_nil, or_false] at hmem
          subst hmem
          exact (h3 t hu).2
  · intro k hk
    cases hfirst : fetch endpoint 1 with
    | error e =>
      rw [getActionNetworkPages_trace_error fetch endpoint extractKey maxItems e hfirst] at hk
      simp only [runLengths, runLengthsAux, List.mem_singleton, List.length_singleton] at hk
      omega
    | ok first =>
      by_cases hlen : (pageToDo endpoint maxItems first).length ≤ 3
      · rw [(shape first hfirst).1 hlen] at hk
        split at hk
        · simp only [runLengths, runLengthsAux, List.mem_singleton, List.length_singleton] at hk
          omega
        · simp only [runLengths, runLengthsAux, List.mem_singleton, List.length_singleton] at hk
          omega
      · obtain ⟨ts, h1, _, h3, _⟩ := (shape first hfirst).2 (by omega)
        rw [h1] at hk
        simp only [runLengths, runLengthsAux, List.length_singleton, Nat.zero_add] at hk
        exact runLengthsAux_cooled 1 ts (by decide) (fun t ht => (h3 t ht).2) k hk

/-! ## A successful run -/

theorem getActionNetworkPages_ok {α : Type} (fetch : Fetch α) (endpoint extractKey : String)
    (maxItems : ℚ) (env : Nat → Envelope α)
    (hkey : endpoint = extractKey ∨ pageToDo endpoint maxItems (env 1) = [])
    (hfirst : fetch endpoint 1 = .ok (env 1))
    (hrest : ∀ r ∈ pageToDo endpoint maxItems (env 1), fetch endpoint r.2 = .ok (env r.2)) :
    (getActionNetworkPages fetch endpoint extractKey maxItems).result
        = .ok ((1 :: (pageToDo endpoint maxItems (env 1)).map Prod.snd).flatMap
            fun p => embeddedItems extractKey (env p))
      ∧ requestsOf (getActionNetworkPages fetch endpoint extractKey maxItems).trace
        = (endpoint, 1) :: pageToDo endpoint maxItems (env 1) := by
  have hk : ∀ r ∈ pageToDo endpoint maxItems (env 1), r.1 = extractKey := by
    intro r hr
    rcases hkey with e | e
    · rw [← e]
      exact pageToDo_item endpoint maxItems (env 1) r hr
    · rw [e] at hr
      cases hr
  have hf : ∀ r ∈ pageToDo endpoint maxItems (env 1), fetch r.1 r.2 = .ok (env r.2) := by
    intro r hr
    rw [pageToDo_item endpoint maxItems (env 1) r hr]
    exact hrest r hr
  obtain ⟨h1, h2⟩ := trancheLoop_ok fetch (fun r => env r.2) extractKey 1
    (pageToDo endpoint maxItems (env 1)) hk hf 0 [env 1] [Event.dispatch [(endpoint, 1)]]
  constructor
  · simp only [getActionNetworkPages, getActionNetworkPage, promiseAll, hfirst,
      List.length_singleton, h1]
    simp [extractReceived, List.map_map, Function.comp_def, List.flatMap_map]
  · rw [getActionNetworkPages_trace_ok fetch endpoint extractKey maxItems (env 1) hfirst, h2]
    simp [requestsOf]

theorem requests_when_keys_agree {α : Type} (fetch : Fetch α) (key : String) (maxItems : ℚ)
    (env : Nat → Envelope α) (hfirst : fetch key 1 = .ok (env 1))
    (hrest : ∀ p : Nat, 2 ≤ p → (p : ℚ) ≤ pagesNeeded maxItems (env 1) →
      fetch key p = .ok (env p)) :
    (requestsOf (getActionNetworkPages fetch key key maxItems).trace).map Prod.snd
        = 1 :: List.range' 2 (⌊pagesNeeded maxItems (env 1)⌋₊ - 1)
      ∧ (∀ r ∈ requestsOf (getActionNetworkPages fetch key key maxItems).trace, r.1 = key)
      ∧ (getActionNetworkPages fetch key key maxItems).result
        = .ok ((1 :: List.range' 2 (⌊pagesNeeded maxItems (env 1)⌋₊ - 1)).flatMap
            fun p => embeddedItems key (env p)) := by
  obtain ⟨hres, hreq⟩ := getActionNetworkPages_ok fetch key key maxItems env (Or.inl rfl) hfirst
    fun r hr => by
      obtain ⟨-, h2, hp⟩ := (mem_pageToDo key maxItems (env 1) r).1 hr
      exact hrest r.2 h2 hp
  refine ⟨?_, ?_, ?_⟩
  · rw [hreq, List.map_cons, pageToDo_pages]
  · intro r hr
    rw [hreq] at hr
    rcases List.mem_cons.1 hr with rfl | hr
    · rfl
    · exact pageToDo_item key maxItems (env 1) r hr
  · rw [hres, pageToDo_pages]

/-! ## Normalisation of one person -/

theorem postalCodeLoop_eq (addresses : List Address) (postalCode : String) :
    postalCodeLoop addresses postalCode
      = ((addresses.filter Address.primary).getLast?.map Address.postal_code).getD postalCode := by
  induction addresses generalizing postalCode with
  | nil => rfl
  | cons address more ih =>
    rw [postalCodeLoop, ih]
    cases hp : address.primary with
    | false => simp [List.filter_cons, hp]
    | true =>
      simp only [List.filter_cons, hp, if_true, List.getLast?_cons]
      cases (List.filter Address.primary more).getLast? <;> rfl

/-- C8: `makeContact` fails exactly when `custom_fields` has no `Phone` entry; otherwise it
returns the contact with the given and family names, the cell `+1` followed by the raw `Phone`
value, the postal code of the last address flagged primary or `02118` when none is flagged, the
timezone offset looked up for that postal code, the status `needsMessage` and the campaign id. -/
theorem makeContact_spec (getTimezoneByZip : String → String) (person : Person)
    (campaignId : Nat) :
    ((∃ e, makeContact getTimezoneByZip person campaignId = .error e)
        ↔ person.custom_fields.lookup "Phone" = none)
      ∧ (person.custom_fields.lookup "Phone" = none →
          makeContact getTimezoneByZip person campaignId = .error .missingPhone)
      ∧ ∀ phone, person.custom_fields.lookup "Phone" = some phone →
          makeContact getTimezoneByZip person campaignId = .ok {
            first_name := person.given_name
            last_name := person.family_name
            cell := "+1" ++ phone
            zip := ((person.postal_addresses.filter Address.primary).getLast?.map
              Address.postal_code).getD "02118"
            timezone_offset := getTimezoneByZip
              (((person.postal_addresses.filter Address.primary).getLast?.map
                Address.postal_code).getD "02118")
            message_status := "needsMessage"
            campaign_id := campaignId } := by
  refine ⟨?_, ?_, ?_⟩
  · cases h : person.custom_fields.lookup "Phone" with
    | none => simp [makeContact, h]
    | some phone => simp [makeContact, h]
  · intro h
    simp [makeContact, h]
  · intro phone h
    simp [makeContact, h, postalCodeLoop_eq]

/-! ## List resolution -/

theorem resolveLoop_eq (getPerson : GetPerson) (getTimezoneByZip : String → String)
    (campaignId : Nat) (items : List Membership) (people : List Contact) :
    resolveLoop getPerson getTimezoneByZip campaignId items people
      = people ++ items.filterMap (contactOf getPerson getTimezoneByZip campaignId) := by
  induction items generalizing people with
  | nil => simp [resolveLoop]
  | cons item more ih =>
    rw [resolveLoop]
    cases hid : item.person_id with
    | none => simp [ih, contactOf, hid, List.filterMap_cons]
    | some identifier =>
      cases hp : getPerson identifier with
      | error e => simp [ih, contactOf, hid, hp, List.filterMap_cons]
      | ok person =>
        cases hc : makeContact getTimezoneByZip person campaignId with
        | error e => simp [ih, contactOf, hid, hp, hc, List.filterMap_cons]
        | ok contact => simp [ih, contactOf, hid, hp, hc, List.filterMap_cons]

theorem filterMap_length_of_isSome {β γ : Type} (f : β → Option γ) (xs : List β)
    (h : ∀ x ∈ xs, (f x).isSome) : (xs.filterMap f).length = xs.length := by
  induction xs with
  | nil => rfl
  | cons x xs ih =>
    have hx := h x (List.mem_cons_self _ _)
    obtain ⟨y, hy⟩ := Option.isSome_iff_exists.1 hx
    simp [List.filterMap_cons, hy, ih fun z hz => h z (List.mem_cons_of_mem _ hz)]

/-- The loop of `getContactsFromList`, once the awaited pagination has returned `items`: the
result is, in item order, the contacts of the items that carry a person id and whose person fetch
and `makeContact` both succeed; one item that yields no contact among items that all do leaves
one contact less than there are items. -/
theorem getContactsFromList_isolation (fetch : Fetch Membership) (getPerson : GetPerson)
    (getTimezoneByZip : String → String) (campaignId : Nat) (listIdentifier : String)
    (maxContacts : ℚ) (items : List Membership)
    (hpages : (getActionNetworkPages fetch ("lists/" ++ listIdentifier ++ "/items") "items"
      maxContacts).result = .ok items) :
    getContactsFromList fetch getPerson getTimezoneByZip campaignId listIdentifier maxContacts
        = .ok (items.filterMap (contactOf getPerson getTimezoneByZip campaignId))
      ∧ (∀ item, contactOf getPerson getTimezoneByZip campaignId item = none ↔
          (item.person_id = none
            ∨ (∃ identifier e, item.person_id = some identifier
                ∧ getPerson identifier = .error e)
            ∨ (∃ identifier person e, item.person_id = some identifier
                ∧ getPerson identifier = .ok person
                ∧ makeContact getTimezoneByZip person campaignId = .error e)))
      ∧ (∀ item identifier person contact, item.person_id = some identifier →
          getPerson identifier = .ok person →
          makeContact getTimezoneByZip person campaignId = .ok contact →
          contactOf getPerson getTimezoneByZip campaignId item = some contact)
      ∧ (∀ before failing after, items = before ++ failing :: after →
          contactOf getPerson getTimezoneByZip campaignId failing = none →
          (∀ item ∈ before ++ after,
            (contactOf getPerson getTimezoneByZip campaignId item).isSome) →
          (items.filterMap (contactOf getPerson getTimezoneByZip campaignId)).length + 1
            = items.length) := by
  refine ⟨?_, ?_, ?_, ?_⟩
  · simp [getContactsFromList, hpages, resolveLoop_eq]
  · intro item
    unfold contactOf
    cases hid : item.person_id with
    | none => simp
    | some identifier =>
      cases hp : getPerson identifier with
      | error e => simp [hp]
      | ok person =>
        cases hc : makeContact getTimezoneByZip person campaignId with
        | error e => simp [hp, hc]
        | ok contact => simp [hp, hc]
  · intro item identifier person contact hid hp hc
    simp [contactOf, hid, hp, hc]
  · intro before failing after hitems hfail hothers
    subst hitems
    rw [List.filterMap_append, List.filterMap_cons, hfail, ← List.filterMap_append,
      filterMap_length_of_isSome _ _ hothers]
    simp only [List.length_append, List.length_cons]
    omega

theorem getActionNetworkPages_key_mismatch {α : Type} (fetch : Fetch α)
    (endpoint extractKey : String) (maxItems : ℚ) (env : Nat → Envelope α)
    (hkey : endpoint ≠ extractKey) (hfirst : fetch endpoint 1 = .ok (env 1))
    (hwork : pageToDo endpoint maxItems (env 1) ≠ [])
    (hrest : ∀ r ∈ pageToDo endpoint maxItems (env 1), fetch endpoint r.2 = .ok (env r.2)) :
    (getActionNetworkPages fetch endpoint extractKey maxItems).result = .error .typeError := by
  have hlt : 0 < (pageToDo endpoint maxItems (env 1)).length := List.length_pos.2 hwork
  have hall : promiseAll ((slice (pageToDo endpoint maxItems (env 1)) 0
        (0 + REQUESTS_PER_SECOND)).map fun r => getActionNetworkPage fetch r.1 r.2)
      = .ok ((slice (pageToDo endpoint maxItems (env 1)) 0 (0 + REQUESTS_PER_SECOND)).map
          fun r => ⟨r.1, r.2, env r.2⟩) := by
    apply promiseAll_map_ok
    intro r hr
    have hmem := mem_of_mem_slice _ _ _ _ hr
    rw [pageToDo_item endpoint maxItems (env 1) r hmem]
    simp [getActionNetworkPage, hrest r hmem]
  obtain ⟨r, rs, hslice⟩ := List.exists_cons_of_ne_nil
    (slice_ne_nil (pageToDo endpoint maxItems (env 1)) 0 REQUESTS_PER_SECOND hlt (by decide))
  have hr : r ∈ pageToDo endpoint maxItems (env 1) :=
    mem_of_mem_slice _ 0 (0 + REQUESTS_PER_SECOND) r (by
      rw [hslice]
      exact List.mem_cons_self _ _)
  have hitem : r.1 ≠ extractKey := by
    rw [pageToDo_item endpoint maxItems (env 1) r hr]
    exact hkey
  simp only [getActionNetworkPages, getActionNetworkPage, promiseAll, hfirst,
    List.length_singleton]
  rw [trancheLoop]
  simp only [if_pos hlt, hall]
  rw [hslice, List.map_cons, pushAll_other_key extractKey _ _ _ hitem]

/-! ## Runs on concrete networks -/

theorem single_page {α : Type} (fetch : Fetch α) (endpoint extractKey : String) (maxItems : ℚ)
    (first : Envelope α) (h : fetch endpoint 1 = .ok first)
    (hone : ⌊pagesNeeded maxItems first⌋₊ ≤ 1) :
    getActionNetworkPages fetch endpoint extractKey maxItems
      = ⟨[Event.dispatch [(endpoint, 1)]], .ok (embeddedItems extractKey first)⟩ := by
  have hw : pageToDo endpoint maxItems first = [] := by
    apply List.eq_nil_of_length_eq_zero
    rw [pageToDo_length]
    omega
  simp only [getActionNetworkPages, getActionNetworkPage, promiseAll, h, hw]
  rw [trancheLoop]
  simp [extractReceived]

/-- C1, the failing input: on the list endpoint `lists/abc/items` with extract key `items`, six
pages and no item bound, every page fetch succeeds and six pages are needed, yet the run requests
pages 1 to 5 only and then fails: the first tranche is filed under the endpoint, a key the
responses dictionary does not have. -/
theorem six_pages_stop_after_first_tranche :
    (∀ p, ∃ envelope, sixPages "lists/abc/items" p = .ok envelope)
      ∧ (∀ envelope, sixPages "lists/abc/items" 1 = .ok envelope →
          pagesNeeded (-1) envelope = 6)
      ∧ (getActionNetworkPages sixPages "lists/abc/items" "items" (-1)).trace
        = [.dispatch [("lists/abc/items", 1)], .wait 1100,
           .dispatch [("lists/abc/items", 2), ("lists/abc/items", 3), ("lists/abc/items", 4),
             ("lists/abc/items", 5)]]
      ∧ (getActionNetworkPages sixPages "lists/abc/items" "items" (-1)).result
        = .error .typeError
      ∧ ("lists/abc/items", 6) ∉
          requestsOf (getActionNetworkPages sixPages "lists/abc/items" "items" (-1)).trace := by
  have hw : pageToDo "lists/abc/items" (-1) (⟨6, 25, some [("osdi:items",
        List.replicate 25 ⟨some (toString 1)⟩)]⟩ : Envelope Membership)
      = [("lists/abc/items", 2), ("lists/abc/items", 3), ("lists/abc/items", 4),
         ("lists/abc/items", 5), ("lists/abc/items", 6)] := by
    unfold pageToDo
    rw [pageToDoFrom_eq _ _ _ (by decide), floor_pagesNeeded]
    norm_num
    rfl
  have hrun : getActionNetworkPages sixPages "lists/abc/items" "items" (-1)
      = ⟨[.dispatch [("lists/abc/items", 1)], .wait 1100,
         .dispatch [("lists/abc/items", 2), ("lists/abc/items", 3), ("lists/abc/items", 4),
           ("lists/abc/items", 5)]], .error .typeError⟩ := by
    simp only [getActionNetworkPages, getActionNetworkPage, promiseAll, sixPages, hw]
    rw [trancheLoop]
    simp [slice, REQUESTS_PER_SECOND, WAIT_MILLIS, promiseAll, getActionNetworkPage, pushAll,
      pushResponse]
  refine ⟨fun p => ⟨_, rfl⟩, ?_, ?_, ?_, ?_⟩
  · intro envelope h
    simp only [sixPages, Except.ok.injEq] at h
    subst h
    simp [pagesNeeded]
  · rw [hrun]
  · rw [hrun]
  · rw [hrun]
    simp [requestsOf]

/-- C3, the failing input: on the list endpoint `lists/abc/items` with extract key `items` and
two pages, both page fetches succeed and the pages embed one item each, yet no item is returned:
the run fails when it files page 2. -/
theorem two_pages_return_no_items :
    (∀ p, ∃ envelope, twoPages "lists/abc/items" p = .ok envelope
        ∧ embeddedItems "items" envelope = [p])
      ∧ (getActionNetworkPages twoPages "lists/abc/items" "items" (-1)).trace
        = [.dispatch [("lists/abc/items", 1)], .dispatch [("lists/abc/items", 2)]]
      ∧ (getActionNetworkPages twoPages "lists/abc/items" "items" (-1)).result
        = .error .typeError := by
  have hw : pageToDo "lists/abc/items" (-1)
      (⟨2, 25, some [("osdi:items", [1])]⟩ : Envelope Nat) = [("lists/abc/items", 2)] := by
    unfold pageToDo
    rw [pageToDoFrom_eq _ _ _ (by decide), floor_pagesNeeded]
    norm_num
  have hrun : getActionNetworkPages twoPages "lists/abc/items" "items" (-1)
      = ⟨[.dispatch [("lists/abc/items", 1)], .dispatch [("lists/abc/items", 2)]],
          .error .typeError⟩ := by
    simp only [getActionNetworkPages, getActionNetworkPage, promiseAll, twoPages, hw]
    rw [trancheLoop]
    simp [slice, REQUESTS_PER_SECOND, promiseAll, getActionNetworkPage, pushAll, pushResponse]
  refine ⟨fun p => ⟨_, rfl, rfl⟩, ?_, ?_⟩
  · rw [hrun]
  · rw [hrun]

/-! ## How many items a bounded run returns -/

theorem length_flatMap_const {β γ : Type} (f : β → List γ) (n : Nat) (xs : List β)
    (h : ∀ x ∈ xs, (f x).length = n) : (xs.flatMap f).length = xs.length * n := by
  induction xs with
  | nil => simp
  | cons x xs ih =>
    rw [List.flatMap_cons, List.length_append, h x (List.mem_cons_self _ _),
      ih fun y hy => h y (List.mem_cons_of_mem _ hy), List.length_cons]
    ring

/-- C10, counterexample: on the list endpoint `lists/abc/items` with extract key `items`,
`maxItems = 30`, `per_page = 25`, `total_pages = 2` and 25 items on every page, the run returns
the 25 items of page 1, fewer than `min 30 (2 * 25) = 30`. -/
theorem thirty_items_wanted_25_returned :
    (∀ p, ∃ envelope, fullPages "lists/abc/items" p = .ok envelope
        ∧ envelope.per_page = 25 ∧ envelope.total_pages = 2
        ∧ (embeddedItems "items" envelope).length = 25)
      ∧ (getActionNetworkPages fullPages "lists/abc/items" "items" 30).result
        = .ok (List.replicate 25 0)
      ∧ ¬ (min 30 (2 * 25) ≤ (List.replicate 25 0).length) := by
  have hfloor : ⌊(30 : ℚ) / 25⌋₊ = 1 := by
    rw [Nat.floor_eq_iff (by norm_num)]
    norm_num
  refine ⟨fun p => ⟨_, rfl, rfl, rfl, rfl⟩, ?_, by decide⟩
  rw [single_page fullPages "lists/abc/items" "items" 30 _ rfl (by
    rw [floor_pagesNeeded]
    simp [hfloor])]
  rfl

/-- C10, amended: for `maxItems > 0`, `per_page ≥ 1` and `total_pages ≥ 1`, when every page up to
`total_pages` is fetched successfully and carries `per_page` items, and the run is one that does
not file a later page under a missing key (the endpoint is the extract key, or a single page is
needed), the run returns `per_page * min total_pages (max 1 ⌊maxItems / per_page⌋)` items: whole
pages only, more than `min maxItems (total_pages * per_page) - per_page` of them. -/
theorem items_returned_whole_pages {α : Type} (fetch : Fetch α) (endpoint extractKey : String)
    (maxItems : ℚ) (env : Nat → Envelope α) (hmax : 0 < maxItems)
    (hper : 1 ≤ (env 1).per_page) (htotal : 1 ≤ (env 1).total_pages)
    (hfetch : ∀ p, 1 ≤ p → p ≤ (env 1).total_pages → fetch endpoint p = .ok (env p))
    (hfull : ∀ p, 1 ≤ p → p ≤ (env 1).total_pages →
      (embeddedItems extractKey (env p)).length = (env 1).per_page)
    (hfiled : endpoint = extractKey
      ∨ min (env 1).total_pages (max 1 ⌊maxItems / ((env 1).per_page : ℚ)⌋₊) ≤ 1) :
    ∃ items, (getActionNetworkPages fetch endpoint extractKey maxItems).result = .ok items
      ∧ items.length = (env 1).per_page
          * min (env 1).total_pages (max 1 ⌊maxItems / ((env 1).per_page : ℚ)⌋₊)
      ∧ min maxItems (((env 1).total_pages * (env 1).per_page : ℕ) : ℚ)
          < ((items.length + (env 1).per_page : ℕ) : ℚ) := by
  have hF : ⌊pagesNeeded maxItems (env 1)⌋₊
      = min (env 1).total_pages (max 1 ⌊maxItems / ((env 1).per_page : ℚ)⌋₊) := by
    rw [floor_pagesNeeded, if_pos ⟨hmax, by omega⟩]
  have hpages : ∀ r ∈ pageToDo endpoint maxItems (env 1),
      1 ≤ r.2 ∧ r.2 ≤ (env 1).total_pages := by
    intro r hr
    have hmem : r.2 ∈ (pageToDo endpoint maxItems (env 1)).map Prod.snd :=
      List.mem_map_of_mem _ hr
    rw [pageToDo_pages, List.mem_range'_1, hF] at hmem
    omega
  have hkey : endpoint = extractKey ∨ pageToDo endpoint maxItems (env 1) = [] := by
    rcases hfiled with h | h
    · exact Or.inl h
    · right
      apply List.eq_nil_of_length_eq_zero
      rw [pageToDo_length, hF]
      omega
  obtain ⟨hres, -⟩ := getActionNetworkPages_ok fetch endpoint extractKey maxItems env hkey
    (hfetch 1 (le_refl 1) htotal) fun r hr => hfetch r.2 (hpages r hr).1 (hpages r hr).2
  have hcount : ∀ p ∈ 1 :: (pageToDo endpoint maxItems (env 1)).map Prod.snd,
      (embeddedItems extractKey (env p)).length = (env 1).per_page := by
    intro p hp
    rcases List.mem_cons.1 hp with rfl | hp
    · exact hfull 1 (le_refl 1) htotal
    · obtain ⟨r, hr, rfl⟩ := List.mem_map.1 hp
      exact hfull r.2 (hpages r hr).1 (hpages r hr).2
  refine ⟨_, hres, ?_, ?_⟩
  · rw [length_flatMap_const _ (env 1).per_page _ hcount, List.length_cons, List.length_map,
      pageToDo_length, hF, Nat.mul_comm]
    congr 1
    omega
  · rw [length_flatMap_const _ (env 1).per_page _ hcount, List.length_cons, List.length_map,
      pageToDo_length, hF]
    have hper' : (0 : ℚ) < ((env 1).per_page : ℚ) := by
      exact_mod_cast hper
    have hlt : maxItems
        < ((⌊maxItems / ((env 1).per_page : ℚ)⌋₊ + 1 : ℕ) : ℚ) * ((env 1).per_page : ℚ) := by
      have h1 := Nat.lt_floor_add_one (maxItems / ((env 1).per_page : ℚ))
      rw [div_lt_iff₀ hper'] at h1
      push_cast
      exact h1
    by_cases hcase : (env 1).total_pages ≤ max 1 ⌊maxItems / ((env 1).per_page : ℚ)⌋₊
    · rw [Nat.min_eq_left hcase]
      apply lt_of_le_of_lt (min_le_right _ _)
      have : (env 1).total_pages - 1 + 1 = (env 1).total_pages := by omega
      rw [this]
      exact_mod_cast Nat.lt_add_of_pos_right (n := (env 1).total_pages * (env 1).per_page) hper
    · rw [Nat.min_eq_right (by omega)]
      apply lt_of_le_of_lt (min_le_left _ _)
      apply lt_of_lt_of_le hlt
      have hq : ⌊maxItems / ((env 1).per_page : ℚ)⌋₊ + 1
          ≤ max 1 ⌊maxItems / ((env 1).per_page : ℚ)⌋₊ - 1 + 1 + 1 := by omega
      have hmul := Nat.mul_le_mul_right (env 1).per_page hq
      have hcast : ((⌊maxItems / ((env 1).per_page : ℚ)⌋₊ + 1 : ℕ) : ℚ)
            * ((env 1).per_page : ℚ)
          ≤ (((max 1 ⌊maxItems / ((env 1).per_page : ℚ)⌋₊ - 1 + 1 + 1)
              * (env 1).per_page : ℕ) : ℚ) := by
        exact_mod_cast hmul
      apply le_trans hcast
      apply le_of_eq
      congr 1
      ring

theorem items_returned_whole_pages_witness :
    ∃ items, (getActionNetworkPages fullPages "lists/abc/items" "items" 30).result = .ok items
      ∧ items.length = 25 * min 2 (max 1 ⌊(30 : ℚ) / ((25 : ℕ) : ℚ)⌋₊)
      ∧ min (30 : ℚ) ((2 * 25 : ℕ) : ℚ) < ((items.length + 25 : ℕ) : ℚ) :=
  items_returned_whole_pages fullPages "lists/abc/items" "items" 30
    (fun _ => ⟨2, 25, some [("osdi:items", List.replicate 25 0)]⟩)
    (by norm_num) (by decide) (by decide) (fun _ _ _ => rfl) (fun _ _ _ => rfl)
    (Or.inr (by
      have hfloor : ⌊(30 : ℚ) / ((25 : ℕ) : ℚ)⌋₊ = 1 := by
        rw [Nat.floor_eq_iff (by norm_num)]
        norm_num
      show min 2 (max 1 ⌊(30 : ℚ) / ((25 : ℕ) : ℚ)⌋₊) ≤ 1
      rw [hfloor]
      decide))

/-! ## The load -/

theorem load_delete_rejects (host : Host) (job : Job) (maxContacts : ℚ)
    (campaign_contact : List Contact) (hd : host.deleteRejects = true) :
    processContactLoad host job maxContacts campaign_contact
      = ⟨[Call.delete job.campaign_id], campaign_contact, .error .host⟩ := by
  simp [processContactLoad, hd]

theorem load_syntax_error (host : Host) (job : Job) (maxContacts : ℚ)
    (campaign_contact : List Contact) (hd : host.deleteRejects = false)
    (hj : host.jsonParse job.payload = none) :
    processContactLoad host job maxContacts campaign_contact
      = ⟨[Call.delete job.campaign_id],
          campaign_contact.filter fun row => row.campaign_id ≠ job.campaign_id,
          .error .syntaxError⟩ := by
  simp [processContactLoad, hd, hj]

theorem load_null_payload (host : Host) (job : Job) (maxContacts : ℚ)
    (campaign_contact : List Contact) (hd : host.deleteRejects = false)
    (hj : host.jsonParse job.payload = some .null) :
    processContactLoad host job maxContacts campaign_contact
      = ⟨[Call.delete job.campaign_id],
          campaign_contact.filter fun row => row.campaign_id ≠ job.campaign_id,
          .error .typeError⟩ := by
  simp [processContactLoad, hd, hj]

theorem load_resolution_fails (host : Host) (job : Job) (maxContacts : ℚ)
    (campaign_contact : List Contact) (listIdentifier requested : String) (e : Failure)
    (hd : host.deleteRejects = false)
    (hj : host.jsonParse job.payload = some (.value listIdentifier requested))
    (hc : getContactsFromList host.fetch host.getPerson host.getTimezoneByZip job.campaign_id
      listIdentifier maxContacts = .error e) :
    processContactLoad host job maxContacts campaign_contact
      = ⟨[Call.delete job.campaign_id],
          campaign_contact.filter fun row => row.campaign_id ≠ job.campaign_id,
          .error e⟩ := by
  simp [processContactLoad, hd, hj, hc]

theorem load_insert_rejects (host : Host) (job : Job) (maxContacts : ℚ)
    (campaign_contact : List Contact) (listIdentifier requested : String)
    (contacts : List Contact) (hd : host.deleteRejects = false)
    (hj : host.jsonParse job.payload = some (.value listIdentifier requested))
    (hc : getContactsFromList host.fetch host.getPerson host.getTimezoneByZip job.campaign_id
      listIdentifier maxContacts = .ok contacts)
    (hb : host.batchInsertRejects = true) :
    processContactLoad host job maxContacts campaign_contact
      = ⟨[Call.delete job.campaign_id, Call.batchInsert contacts 100],
          campaign_contact.filter fun row => row.campaign_id ≠ job.campaign_id,
          .error .host⟩ := by
  simp [processContactLoad, hd, hj, hc, hb]

theorem load_reaches_completion (host : Host) (job : Job) (maxContacts : ℚ)
    (campaign_contact : List Contact) (listIdentifier requested : String)
    (contacts : List Contact) (hd : host.deleteRejects = false)
    (hj : host.jsonParse job.payload = some (.value listIdentifier requested))
    (hc : getContactsFromList host.fetch host.getPerson host.getTimezoneByZip job.campaign_id
      listIdentifier maxContacts = .ok contacts)
    (hb : host.batchInsertRejects = false) :
    processContactLoad host job maxContacts campaign_contact
      = ⟨[Call.delete job.campaign_id, Call.batchInsert contacts 100,
            Call.completeContactLoad job requested contacts.length],
          (campaign_contact.filter fun row => row.campaign_id ≠ job.campaign_id) ++ contacts,
          if host.completeContactLoadRejects then .error .host else .ok ()⟩ := by
  cases hr : host.completeContactLoadRejects <;> simp [processContactLoad, hd, hj, hc, hb, hr]

/-- C5, counterexample: a job whose payload is malformed makes `JSON.parse` raise; the load then
ends with that failure and `completeContactLoad` is never called, where the claim wants exactly
one call. -/
theorem malformed_payload_never_completes :
    malformedPayloadHost.jsonParse "not json" = none
      ∧ (processContactLoad malformedPayloadHost ⟨7, "not json"⟩ 100 []).result = .error .syntaxError
      ∧ (processContactLoad malformedPayloadHost ⟨7, "not json"⟩ 100 []).calls = [Call.delete 7]
      ∧ (completions (processContactLoad malformedPayloadHost ⟨7, "not json"⟩ 100 []).calls).length
        ≠ 1 := by
  refine ⟨rfl, rfl, rfl, by decide⟩

/-- C5, amended: `completeContactLoad` is called at most once.  When the delete, the payload
parse, the list resolution and the bulk insert all succeed it is called exactly once, with the
requested count of the payload and the number of contacts inserted as the final count.  When one
of these steps raises, the load ends with a failure and `completeContactLoad` is not called. -/
theorem completion_once_on_success_none_on_failure (host : Host) (job : Job) (maxContacts : ℚ)
    (campaign_contact : List Contact) :
    (completions (processContactLoad host job maxContacts campaign_contact).calls).length ≤ 1
      ∧ (∀ listIdentifier requested contacts,
          host.deleteRejects = false →
          host.jsonParse job.payload = some (.value listIdentifier requested) →
          getContactsFromList host.fetch host.getPerson host.getTimezoneByZip job.campaign_id
            listIdentifier maxContacts = .ok contacts →
          host.batchInsertRejects = false →
          completions (processContactLoad host job maxContacts campaign_contact).calls
            = [(job, requested, contacts.length)])
      ∧ ((host.deleteRejects = true
            ∨ host.jsonParse job.payload = none
            ∨ host.jsonParse job.payload = some .null
            ∨ (∃ listIdentifier requested e,
                host.jsonParse job.payload = some (.value listIdentifier requested)
                ∧ getContactsFromList host.fetch host.getPerson host.getTimezoneByZip
                    job.campaign_id listIdentifier maxContacts = .error e)
            ∨ host.batchInsertRejects = true) →
          completions (processContactLoad host job maxContacts campaign_contact).calls = []
            ∧ ∃ e, (processContactLoad host job maxContacts campaign_contact).result
                = .error e) := by
  have hfail : ∀ (calls : List Call) (table : List Contact) (e : Failure),
      completions calls = [] →
      (completions (Load.mk calls table (.error e)).calls).length ≤ 1
        ∧ completions (Load.mk calls table (.error e)).calls = []
        ∧ ∃ e', (Load.mk calls table (.error e)).result = .error e' :=
    fun calls table e h => ⟨by simp [h], h, e, rfl⟩
  cases hd : host.deleteRejects with
  | true =>
    rw [load_delete_rejects host job maxContacts campaign_contact hd]
    obtain ⟨h1, h2, h3⟩ := hfail [Call.delete job.campaign_id] campaign_contact .host rfl
    refine ⟨h1, ?_, fun _ => ⟨h2, h3⟩⟩
    intro _ _ _ h
    cases h
  | false =>
    cases hj : host.jsonParse job.payload with
    | none =>
      rw [load_syntax_error host job maxContacts campaign_contact hd hj]
      obtain ⟨h1, h2, h3⟩ := hfail [Call.delete job.campaign_id]
        (campaign_contact.filter fun row => row.campaign_id ≠ job.campaign_id) .syntaxError rfl
      refine ⟨h1, ?_, fun _ => ⟨h2, h3⟩⟩
      intro _ _ _ _ h
      cases h
    | some data =>
      cases data with
      | null =>
        rw [load_null_payload host job maxContacts campaign_contact hd hj]
        obtain ⟨h1, h2, h3⟩ := hfail [Call.delete job.campaign_id]
          (campaign_contact.filter fun row => row.campaign_id ≠ job.campaign_id) .typeError rfl
        refine ⟨h1, ?_, fun _ => ⟨h2, h3⟩⟩
        intro _ _ _ _ h
        cases h
      | value listIdentifier requested =>
        cases hc : getContactsFromList host.fetch host.getPerson host.getTimezoneByZip
            job.campaign_id listIdentifier maxContacts with
        | error e =>
          rw [load_resolution_fails host job maxContacts campaign_contact listIdentifier
            requested e hd hj hc]
          obtain ⟨h1, h2, h3⟩ := hfail [Call.delete job.campaign_id]
            (campaign_contact.filter fun row => row.campaign_id ≠ job.campaign_id) e rfl
          refine ⟨h1, ?_, fun _ => ⟨h2, h3⟩⟩
          intro _ _ _ _ h1 h3
          cases h1
          rw [hc] at h3
          cases h3
        | ok contacts =>
          cases hb : host.batchInsertRejects with
          | true =>
            rw [load_insert_rejects host job maxContacts campaign_contact listIdentifier
              requested contacts hd hj hc hb]
            obtain ⟨h1, h2, h3⟩ := hfail
              [Call.delete job.campaign_id, Call.batchInsert contacts 100]
              (campaign_contact.filter fun row => row.campaign_id ≠ job.campaign_id) .host rfl
            refine ⟨h1, ?_, fun _ => ⟨h2, h3⟩⟩
            intro _ _ _ _ _ _ h
            cases h
          | false =>
            rw [load_reaches_completion host job maxContacts campaign_contact listIdentifier
              requested contacts hd hj hc hb]
            refine ⟨by simp [completions], ?_, ?_⟩
            · intro _ _ _ _ h1 h3 _
              cases h1
              rw [hc] at h3
              cases h3
              rfl
            · intro h
              exfalso
              rcases h with h | h | h | ⟨_, _, _, h1, h3⟩ | h
              · cases h
              · cases h
              · cases h
              · cases h1
                rw [hc] at h3
                cases h3
              · cases h

/-- C6, counterexample: campaign 7 holds a contact and the job payload is malformed; the load
fails, but only after it has issued the delete, and the table has lost the contact. -/
theorem malformed_payload_still_deletes :
    malformedPayloadHost.jsonParse "not json" = none
      ∧ Call.delete 7
          ∈ (processContactLoad malformedPayloadHost ⟨7, "not json"⟩ 100 [earlierContact]).calls
      ∧ (processContactLoad malformedPayloadHost ⟨7, "not json"⟩ 100
          [earlierContact]).campaign_contact = []
      ∧ (processContactLoad malformedPayloadHost ⟨7, "not json"⟩ 100
          [earlierContact]).campaign_contact ≠ [earlierContact] := by
  refine ⟨rfl, by decide, by decide, by decide⟩

/-- C6, amended: for a job whose payload is not valid JSON, `processContactLoad` fails after the
delete of the campaign's contacts and before anything else: the delete is the only call it makes,
so neither the bulk insert nor `completeContactLoad` is executed, and when the delete succeeds
the table has lost exactly the rows of the job's campaign. -/
theorem malformed_payload_fails_after_delete (host : Host) (job : Job) (maxContacts : ℚ)
    (campaign_contact : List Contact) (hpayload : host.jsonParse job.payload = none) :
    (processContactLoad host job maxContacts campaign_contact).calls
        = [Call.delete job.campaign_id]
      ∧ (∃ e, (processContactLoad host job maxContacts campaign_contact).result = .error e)
      ∧ (host.deleteRejects = false →
          (processContactLoad host job maxContacts campaign_contact).result
              = .error .syntaxError
            ∧ (processContactLoad host job maxContacts campaign_contact).campaign_contact
              = campaign_contact.filter fun row => row.campaign_id ≠ job.campaign_id)
      ∧ (host.deleteRejects = true →
          (processContactLoad host job maxContacts campaign_contact).campaign_contact
            = campaign_contact) := by
  unfold processContactLoad
  cases hd : host.deleteRejects <;> simp [hpayload]

theorem malformed_payload_fails_after_delete_witness :
    (processContactLoad malformedPayloadHost ⟨7, "not json"⟩ 100 [earlierContact]).calls
        = [Call.delete 7]
      ∧ (∃ e, (processContactLoad malformedPayloadHost ⟨7, "not json"⟩ 100
          [earlierContact]).result = .error e)
      ∧ (malformedPayloadHost.deleteRejects = false →
          (processContactLoad malformedPayloadHost ⟨7, "not json"⟩ 100
              [earlierContact]).result = .error .syntaxError
            ∧ (processContactLoad malformedPayloadHost ⟨7, "not json"⟩ 100
                [earlierContact]).campaign_contact
              = [earlierContact].filter fun row => row.campaign_id ≠ 7)
      ∧ (malformedPayloadHost.deleteRejects = true →
          (processContactLoad malformedPayloadHost ⟨7, "not json"⟩ 100
              [earlierContact]).campaign_contact = [earlierContact]) :=
  malformed_payload_fails_after_delete malformedPayloadHost ⟨7, "not json"⟩ 100
    [earlierContact] rfl

/-- C4, the failing input: list `abc` has two pages of 25 memberships, every page fetch succeeds
and every member is a person that can be fetched and normalised, yet `getContactsFromList` with
`maxContacts = 50` returns no contact at all: the awaited pagination, which is outside the `try`,
fails when it files page 2 under the endpoint, and the failure escapes. -/
theorem two_membership_pages_raise :
    (∀ p, ∃ envelope, twoPageHost.fetch "lists/abc/items" p = .ok envelope
        ∧ embeddedItems "items" envelope = List.replicate 25 ⟨some "p"⟩)
      ∧ (∀ identifier, contactOf twoPageHost.getPerson twoPageHost.getTimezoneByZip 7
          ⟨some identifier⟩ = some adaContact)
      ∧ getContactsFromList twoPageHost.fetch twoPageHost.getPerson
          twoPageHost.getTimezoneByZip 7 "abc" 50 = .error .typeError
      ∧ (processContactLoad twoPageHost ⟨7, "abc, 50"⟩ 50 []).result = .error .typeError := by
  have hfloor : ⌊(50 : ℚ) / ((25 : ℕ) : ℚ)⌋₊ = 2 := by
    rw [Nat.floor_eq_iff (by norm_num)]
    norm_num
  have hpages : (getActionNetworkPages twoPageHost.fetch ("lists/" ++ "abc" ++ "/items") "items"
      50).result = .error .typeError := by
    apply getActionNetworkPages_key_mismatch twoPageHost.fetch _ "items" 50
      (fun _ => ⟨2, 25, some [("osdi:items", List.replicate 25 ⟨some "p"⟩)]⟩)
      (by decide) rfl
    · intro h
      have hlen := congrArg List.length h
      rw [pageToDo_length, floor_pagesNeeded] at hlen
      have h50 : (50 : ℚ) > 0 := by norm_num
      simp only [h50, true_and] at hlen
      rw [if_pos (by decide), hfloor] at hlen
      revert hlen
      decide
    · intro r _
      rfl
  have hcontacts : getContactsFromList twoPageHost.fetch twoPageHost.getPerson
      twoPageHost.getTimezoneByZip 7 "abc" 50 = .error .typeError := by
    simp only [getContactsFromList, hpages]
  refine ⟨fun p => ⟨_, rfl, rfl⟩, fun identifier => rfl, hcontacts, ?_⟩
  rw [load_resolution_fails twoPageHost ⟨7, "abc, 50"⟩ 50 [] "abc" "50" .typeError rfl rfl
    hcontacts]

/-- C7, the failing input: with `maxContacts = 10` and a list of one page of 25 memberships, all
of valid persons, the load inserts 25 contacts and reports `finalCount` 25, more than 10. -/
theorem ten_contacts_allowed_25_loaded :
    getContactsFromList onePageHost.fetch onePageHost.getPerson onePageHost.getTimezoneByZip 7
        "abc" 10 = .ok (List.replicate 25 adaContact)
      ∧ (processContactLoad onePageHost ⟨7, "abc, 10"⟩ 10 []).calls
        = [Call.delete 7, Call.batchInsert (List.replicate 25 adaContact) 100,
            Call.completeContactLoad ⟨7, "abc, 10"⟩ "10" 25]
      ∧ (processContactLoad onePageHost ⟨7, "abc, 10"⟩ 10 []).campaign_contact
        = List.replicate 25 adaContact
      ∧ ¬ ((List.replicate 25 adaContact).length ≤ 10) := by
  have hfloor : ⌊(10 : ℚ) / 25⌋₊ = 0 := by
    rw [Nat.floor_eq_zero]
    norm_num
  have hpages : getActionNetworkPages onePageHost.fetch ("lists/" ++ "abc" ++ "/items") "items" 10
      = ⟨[Event.dispatch [("lists/" ++ "abc" ++ "/items", 1)]],
          .ok (List.replicate 25 ⟨some "p"⟩)⟩ :=
    single_page onePageHost.fetch _ "items" 10 _ rfl (by
      rw [floor_pagesNeeded]
      simp [hfloor])
  have hcontacts : getContactsFromList onePageHost.fetch onePageHost.getPerson
      onePageHost.getTimezoneByZip 7 "abc" 10 = .ok (List.replicate 25 adaContact) := by
    have hone : contactOf onePageHost.getPerson onePageHost.getTimezoneByZip 7 ⟨some "p"⟩
        = some adaContact := by decide
    simp only [getContactsFromList, hpages, resolveLoop_eq, List.nil_append]
    rw [List.filterMap_replicate_of_some hone]
  refine ⟨hcontacts, ?_, ?_, by decide⟩
  · rw [load_reaches_completion onePageHost ⟨7, "abc, 10"⟩ 10 [] "abc" "10"
      (List.replicate 25 adaContact) rfl rfl hcontacts rfl]
    simp
  · rw [load_reaches_completion onePageHost ⟨7, "abc, 10"⟩ 10 [] "abc" "10"
      (List.replicate 25 adaContact) rfl rfl hcontacts rfl]
    simp

/-! ## Contact lists -/

theorem toContactList_eq_some (thing : ListRecord) (entry : ContactList) :
    toContactList thing = some entry ↔
      ∃ name identifier, thing.name = some name ∧ name ≠ ""
        ∧ firstIdentifier (thing.identifiers.getD []) = some identifier ∧ identifier ≠ ""
        ∧ entry = ⟨name, identifier⟩ := by
  unfold toContactList
  cases hn : thing.name with
  | none => simp [truthy]
  | some name =>
    cases hi : firstIdentifier (thing.identifiers.getD []) with
    | none => simp [truthy]
    | some identifier =>
      by_cases h1 : identifier = "" <;> by_cases h2 : name = "" <;>
        simp [truthy, interpolate, h1, h2, eq_comm]

theorem firstIdentifier_eq (candidates : List String) :
    firstIdentifier candidates = candidates.findSome? identifierRegex := by
  induction candidates with
  | nil => rfl
  | cons c cs ih =>
    rw [firstIdentifier, List.findSome?_cons, ih]
    cases identifierRegex c <;> rfl

theorem isLineTerminator_eq (c : Char) :
    isLineTerminator c = (c.toNat = 10 || c.toNat = 13 || c.toNat = 8232 || c.toNat = 8233) := by
  have key : ∀ n : Nat, (Char.ofNat n).toNat = n → (c = Char.ofNat n ↔ c.toNat = n) := by
    intro n hn
    constructor
    · rintro rfl
      exact hn
    · intro h
      rw [← h, Char.ofNat_toNat]
  unfold isLineTerminator
  simp only [key 0x0A (by decide), key 0x0D (by decide), key 0x2028 (by decide),
    key 0x2029 (by decide)]

theorem matchHere_eq_some (cs captured : List Char) :
    matchHere cs = some captured ↔
      ∃ after, cs = "action_network:".data ++ after
        ∧ captured = after.takeWhile fun c => !isLineTerminator c := by
  unfold matchHere
  by_cases h : "action_network:".data.isPrefixOf cs = true
  · rw [if_pos h]
    obtain ⟨after, rfl⟩ := List.isPrefixOf_iff_prefix.1 h
    rw [List.drop_left]
    constructor
    · intro e
      exact ⟨after, rfl, (Option.some.inj e).symm⟩
    · rintro ⟨after', h1, h2⟩
      rw [List.append_cancel_left h1, h2]
  · rw [if_neg h]
    constructor
    · intro e
      cases e
    · rintro ⟨after, rfl, -⟩
      exact absurd (List.isPrefixOf_iff_prefix.2 ⟨after, rfl⟩) h

theorem execFrom_eq_some (cs captured : List Char) :
    execFrom cs = some captured ↔
      ∃ before after, cs = before ++ "action_network:".data ++ after
        ∧ (∀ before' after', cs = before' ++ "action_network:".data ++ after' →
            before.length ≤ before'.length)
        ∧ captured = after.takeWhile fun c => !isLineTerminator c := by
  induction cs with
  | nil =>
    constructor
    · intro e
      have : matchHere [] = some captured := e
      obtain ⟨after, h, -⟩ := (matchHere_eq_some [] captured).1 this
      cases h
    · rintro ⟨before, after, h, -⟩
      have := congrArg List.length h
      simp at this
      omega
  | cons c cs ih =>
    rw [execFrom]
    cases hm : matchHere (c :: cs) with
    | some m =>
      obtain ⟨after0, h0, hm0⟩ := (matchHere_eq_some _ _).1 hm
      constructor
      · intro e
        cases e
        exact ⟨[], after0, by simpa using h0, fun _ _ _ => Nat.zero_le _, hm0⟩
      · rintro ⟨before, after, h1, h2, h3⟩
        have hb : before = [] :=
          List.eq_nil_of_length_eq_zero (Nat.le_zero.1 (h2 [] after0 (by simpa using h0)))
        subst hb
        rw [List.nil_append] at h1
        have : after = after0 := List.append_cancel_left (h1.symm.trans h0)
        rw [h3, this, ← hm0]
    | none =>
      simp only
      rw [ih]
      have hno : ∀ after, c :: cs ≠ "action_network:".data ++ after := by
        intro after h
        have := (matchHere_eq_some (c :: cs) _).2 ⟨after, h, rfl⟩
        rw [hm] at this
        cases this
      constructor
      · rintro ⟨before, after, h1, h2, h3⟩
        refine ⟨c :: before, after, by rw [h1]; rfl, ?_, h3⟩
        intro before' after' h'
        cases before' with
        | nil => exact absurd (by simpa using h') (hno after')
        | cons d before'' =>
          simp only [List.cons_append, List.cons.injEq] at h'
          have := h2 before'' after' (by simpa using h'.2)
          simp only [List.length_cons]
          omega
      · rintro ⟨before, after, h1, h2, h3⟩
        cases before with
        | nil => exact absurd (by simpa using h1) (hno after)
        | cons d before0 =>
          simp only [List.cons_append, List.cons.injEq] at h1
          refine ⟨before0, after, by simpa using h1.2, ?_, h3⟩
          intro before' after' h'
          have := h2 (c :: before') after' (by rw [h']; rfl)
          simp only [List.length_cons] at this
          omega

theorem identifierRegex_eq_some (candidate captured : String) :
    identifierRegex candidate = some captured ↔
      ∃ before after, candidate.data = before ++ "action_network:".data ++ after
        ∧ (∀ before' after', candidate.data = before' ++ "action_network:".data ++ after' →
            before.length ≤ before'.length)
        ∧ captured = String.mk (after.takeWhile fun c =>
            !(c.toNat = 10 || c.toNat = 13 || c.toNat = 8232 || c.toNat = 8233)) := by
  have hfun : (fun c => !isLineTerminator c)
      = fun c => !(decide (c.toNat = 10) || decide (c.toNat = 13) || decide (c.toNat = 8232)
          || decide (c.toNat = 8233)) := by
    funext c
    rw [isLineTerminator_eq]
  unfold identifierRegex
  rw [Option.map_eq_some']
  constructor
  · rintro ⟨cap, h, rfl⟩
    obtain ⟨before, after, h1, h2, h3⟩ := (execFrom_eq_some _ _).1 h
    refine ⟨before, after, h1, h2, ?_⟩
    rw [h3, hfun]
  · rintro ⟨before, after, h1, h2, h3⟩
    refine ⟨_, (execFrom_eq_some _ _).2 ⟨before, after, h1, h2, rfl⟩, ?_⟩
    rw [h3, hfun]

theorem plainCollate_le (a b : String) :
    plainCollate a b ≤ 0 ↔ a.toLower < b.toLower ∨ (a.toLower = b.toLower ∧ b ≤ a) := by
  unfold plainCollate
  by_cases h1 : a.toLower < b.toLower
  · rw [if_pos h1]
    exact ⟨fun _ => Or.inl h1, fun _ => by decide⟩
  · rw [if_neg h1]
    by_cases h2 : b.toLower < a.toLower
    · rw [if_pos h2]
      constructor
      · intro h
        exact absurd h (by decide)
      · rintro (h | ⟨h, -⟩)
        · exact absurd h h1
        · rw [h] at h2
          exact absurd h2 (lt_irrefl _)
    · rw [if_neg h2]
      have heq : a.toLower = b.toLower := le_antisymm (not_lt.1 h2) (not_lt.1 h1)
      by_cases h3 : b < a
      · rw [if_pos h3]
        exact ⟨fun _ => Or.inr ⟨heq, le_of_lt h3⟩, fun _ => by decide⟩
      · rw [if_neg h3]
        by_cases h4 : a < b
        · rw [if_pos h4]
          constructor
          · intro h
            exact absurd h (by decide)
          · rintro (h | ⟨-, h⟩)
            · exact absurd h h1
            · exact absurd h4 (not_lt.2 h)
        · rw [if_neg h4]
          exact ⟨fun _ => Or.inr ⟨heq, not_lt.1 h4⟩, fun _ => le_refl _⟩

theorem plainCollate_total (a b : String) : plainCollate a b ≤ 0 ∨ plainCollate b a ≤ 0 := by
  rw [plainCollate_le, plainCollate_le]
  rcases lt_trichotomy a.toLower b.toLower with h | h | h
  · exact Or.inl (Or.inl h)
  · rcases le_total b a with h' | h'
    · exact Or.inl (Or.inr ⟨h, h'⟩)
    · exact Or.inr (Or.inr ⟨h.symm, h'⟩)
  · exact Or.inr (Or.inl h)

theorem plainCollate_trans (a b c : String) (hab : plainCollate a b ≤ 0)
    (hbc : plainCollate b c ≤ 0) : plainCollate a c ≤ 0 := by
  rw [plainCollate_le] at *
  rcases hab with h | ⟨h, h'⟩
  · rcases hbc with g | ⟨g, -⟩
    · exact Or.inl (lt_trans h g)
    · exact Or.inl (g ▸ h)
  · rcases hbc with g | ⟨g, g'⟩
    · exact Or.inl (h ▸ g)
    · exact Or.inr ⟨h.trans g, le_trans g' h'⟩

theorem plainCollate_fold (a b : String) (h : plainCollate a b ≤ 0) :
    a.toLower ≤ b.toLower := by
  rcases (plainCollate_le a b).1 h with h | ⟨h, -⟩
  · exact le_of_lt h
  · exact le_of_eq h

theorem zed_apple_beta_order (localeCompare : String → String → Int)
    (htotal : ∀ a b, localeCompare a b ≤ 0 ∨ localeCompare b a ≤ 0)
    (hplain : ∀ a b, plainName a = true → plainName b = true → localeCompare a b ≤ 0 →
      a.toLower ≤ b.toLower) :
    localeCompare "apple" "Beta" ≤ 0 ∧ ¬ localeCompare "Zed" "apple" ≤ 0
      ∧ ¬ localeCompare "Zed" "Beta" ≤ 0 := by
  have hza : ¬ "Zed".toLower ≤ "apple".toLower := by
    simp only [String.toLower, String.map_eq, not_le, String.lt_iff_toList_lt]
    decide
  have hzb : ¬ "Zed".toLower ≤ "Beta".toLower := by
    simp only [String.toLower, String.map_eq, not_le, String.lt_iff_toList_lt]
    decide
  have hba : ¬ "Beta".toLower ≤ "apple".toLower := by
    simp only [String.toLower, String.map_eq, not_le, String.lt_iff_toList_lt]
    decide
  refine ⟨?_, fun h => hza (hplain _ _ (by decide) (by decide) h),
    fun h => hzb (hplain _ _ (by decide) (by decide) h)⟩
  rcases htotal "apple" "Beta" with h | h
  · exact h
  · exact absurd (hplain _ _ (by decide) (by decide) h) hba

/-- C9: when every page of `lists` is fetched successfully, with `fetched` the records of the
pages in page order, and for a `localeCompare` that is a total, transitive comparison which on
plain names (ASCII letters, digits, spaces) never puts a name before one whose lower-case form
is smaller, `getContactLists` returns a rearrangement of the entries made from `fetched`, one per
record that yields an entry and none removed, sorted by name according to `localeCompare`, so
that plain names come in ascending order of their lower-case forms.  A record yields the entry
`{name, identifier}` exactly when its name is present and not empty and the capture of its first
candidate matching `action_network:(.*)` is not empty; a candidate matches when it contains
`action_network:`, and the capture is what follows the leftmost occurrence, up to the first line
terminator.  Lists named `Zed`, `apple`, `Beta` come back as `apple`, `Beta`, `Zed`. -/
theorem getContactLists_spec (fetch : Fetch ListRecord) (localeCompare : String → String → Int)
    (env : Nat → Envelope ListRecord) (fetched : List ListRecord)
    (hfirst : fetch "lists" 1 = .ok (env 1))
    (hrest : ∀ p : Nat, 2 ≤ p → p ≤ (env 1).total_pages → fetch "lists" p = .ok (env p))
    (hfetched : fetched = (1 :: List.range' 2 ((env 1).total_pages - 1)).flatMap
      fun p => embeddedItems "lists" (env p))
    (htotal : ∀ a b, localeCompare a b ≤ 0 ∨ localeCompare b a ≤ 0)
    (htrans : ∀ a b c, localeCompare a b ≤ 0 → localeCompare b c ≤ 0 → localeCompare a c ≤ 0)
    (hplain : ∀ a b, plainName a = true → plainName b = true → localeCompare a b ≤ 0 →
      a.toLower ≤ b.toLower) :
    ∃ lists, getContactLists fetch localeCompare = .ok lists
      ∧ lists.Perm (fetched.filterMap toContactList)
      ∧ lists.Pairwise (fun a b => localeCompare a.name b.name ≤ 0)
      ∧ lists.Pairwise (fun a b => plainName a.name = true → plainName b.name = true →
          a.name.toLower ≤ b.name.toLower)
      ∧ (∀ thing entry, toContactList thing = some entry ↔
          ∃ name identifier, thing.name = some name ∧ name ≠ ""
            ∧ (thing.identifiers.getD []).findSome? identifierRegex = some identifier
            ∧ identifier ≠ "" ∧ entry = ⟨name, identifier⟩)
      ∧ (∀ candidate captured, identifierRegex candidate = some captured ↔
          ∃ before after, candidate.data = before ++ "action_network:".data ++ after
            ∧ (∀ before' after',
                candidate.data = before' ++ "action_network:".data ++ after' →
                before.length ≤ before'.length)
            ∧ captured = String.mk (after.takeWhile fun c =>
                !(c.toNat = 10 || c.toNat = 13 || c.toNat = 8232 || c.toNat = 8233)))
      ∧ (∀ z a b : ContactList, z.name = "Zed" → a.name = "apple" → b.name = "Beta" →
          fetched.filterMap toContactList = [z, a, b] → lists = [a, b, z]) := by
  have hpages : (getActionNetworkPages fetch "lists" "lists" (-1)).result = .ok fetched := by
    have hneg : ¬ ((-1 : ℚ) > 0) := by norm_num
    have hfloor : ⌊pagesNeeded (-1) (env 1)⌋₊ = (env 1).total_pages := by
      rw [floor_pagesNeeded]
      simp [hneg]
    have h := (requests_when_keys_agree fetch "lists" (-1) env hfirst (by
      intro p h2 hp
      apply hrest p h2
      have hp' : ((p : ℚ)) ≤ ((env 1).total_pages : ℚ) := by
        simpa [pagesNeeded, hneg] using hp
      exact_mod_cast hp')).2.2
    rw [h, hfloor, hfetched]
  haveI : IsTotal ContactList (fun a b => localeCompare a.name b.name ≤ 0) :=
    ⟨fun a b => htotal a.name b.name⟩
  haveI : IsTrans ContactList (fun a b => localeCompare a.name b.name ≤ 0) :=
    ⟨fun a b c => htrans a.name b.name c.name⟩
  have hsorted := List.sorted_insertionSort
    (fun a b : ContactList => localeCompare a.name b.name ≤ 0) (fetched.filterMap toContactList)
  refine ⟨_, by simp only [getContactLists, hpages, arraySort], ?_, hsorted, ?_, ?_, ?_, ?_⟩
  · exact List.perm_insertionSort _ _
  · exact List.Pairwise.imp (fun {a b} h ha hb => hplain a.name b.name ha hb h) hsorted
  · intro thing entry
    rw [toContactList_eq_some, firstIdentifier_eq]
  · exact identifierRegex_eq_some
  · intro z a b hz ha hb hlists
    obtain ⟨hab, hza, hzb⟩ := zed_apple_beta_order localeCompare htotal hplain
    rw [hlists]
    simp [List.insertionSort, List.orderedInsert, hz, ha, hb, hab, hza, hzb]

/-- The Zed, apple, Beta lists, served as one page and collated as plain names, come back as
apple, Beta, Zed; the record without a name and the record whose first matching identifier has
an empty capture are dropped. -/
theorem getContactLists_spec_witness :
    getContactLists zedAppleBeta plainCollate
      = .ok [⟨"apple", "a1"⟩, ⟨"Beta", "b2"⟩, ⟨"Zed", "z3"⟩] := by
  obtain ⟨lists, hlists, -, -, -, -, -, hexample⟩ :=
    getContactLists_spec zedAppleBeta plainCollate
      (fun _ => ⟨1, 25, some [("osdi:lists", upstreamLists)]⟩) upstreamLists rfl
      (fun _ _ _ => rfl) rfl plainCollate_total plainCollate_trans
      (fun a b _ _ h => plainCollate_fold a b h)
  rw [hlists, hexample ⟨"Zed", "z3"⟩ ⟨"apple", "a1"⟩ ⟨"Beta", "b2"⟩ rfl rfl rfl (by decide)]

end ActionNetwork
